import Mathlib

/-!
Verification development for the pocket-rag ingestion and retrieval core.

The Python source is shallowly embedded:
* Python dicts with string keys are association lists (`PyDict`); `dget`
  is `dict.get` (returning `none` for a missing key), `dset` is item
  assignment (replace in place, else append).
* Python floats are modeled as exact rationals (`ℚ`); the score formulas
  of `search_hybrid` are pure arithmetic, so the real-arithmetic model is
  the intended reading of the formulas.
* Fallible Python code (raising) is modeled in `Except String`, the error
  string naming the Python exception class.
* Python truthiness (`x or y`, `if d:`) is modeled explicitly (`pyTruthy`,
  `pyOr`).
-/

/-- A Python scalar value as it occurs in the hit records of
`search_hybrid`: a number (int or float, modeled exactly) or a string. -/
inductive PyVal where
  | num (q : ℚ)
  | str (s : String)
deriving DecidableEq

/-- A Python dict with string keys, as an association list in insertion
order.  `search_hybrid` treats hit records as such dicts. -/
abbrev PyDict := List (String × PyVal)

/-- `d.get(key)`: first binding of `key`, `none` when absent. -/
def dget : PyDict → String → Option PyVal
  | [], _ => none
  | kv :: rest, key => if kv.1 = key then some kv.2 else dget rest key

/-- `d[key] = v`: replace the binding in place when the key exists,
append otherwise (Python dicts keep first-insertion key order). -/
def dset (d : PyDict) (key : String) (v : PyVal) : PyDict :=
  match d with
  | [] => [(key, v)]
  | kv :: rest => if kv.1 = key then (key, v) :: rest else kv :: dset rest key v

/-- Python truthiness of a scalar: `0`, `0.0` and `""` are falsy. -/
def pyTruthy : PyVal → Bool
  | .num q => q != 0
  | .str s => s != ""

/-- Python `a or b` on optional scalars (`None` is modeled as `none`):
returns `a` when `a` is present and truthy, else `b`. -/
def pyOr (a b : Option PyVal) : Option PyVal :=
  match a with
  | some v => if pyTruthy v then some v else b
  | none => b

/-- `make_id_key` from `Project.search_hybrid`:
`item.get("text_unit_id") or item.get("id")`. -/
def make_id_key (item : PyDict) : Option PyVal :=
  pyOr (dget item "text_unit_id") (dget item "id")

/-- An identifier-keyed map of hit records (`vector_dict` / `keyword_dict`
in `search_hybrid`), insertion-ordered with unique keys. -/
abbrev HitMap := List (PyVal × PyDict)

/-- Insert with dict semantics: replace in place or append. -/
def hmSet (m : HitMap) (key : PyVal) (v : PyDict) : HitMap :=
  match m with
  | [] => [(key, v)]
  | kv :: rest => if kv.1 = key then (key, v) :: rest else kv :: hmSet rest key v

/-- Lookup in a `HitMap`. -/
def hmGet : HitMap → PyVal → Option PyDict
  | [], _ => none
  | kv :: rest, key => if kv.1 = key then some kv.2 else hmGet rest key

/-- The dict comprehension building `vector_dict` / `keyword_dict`:
iterate the hits in order, keep those whose extracted key
(`make_id_key`) is not `None`, later duplicates overwrite. -/
def build_hit_dict (hits : List PyDict) : HitMap :=
  hits.foldl
    (fun m item =>
      match make_id_key item with
      | some key => hmSet m key item
      | none => m)
    []

/-- The literal `1e-6` of `vector_score_func`, as an exact rational. -/
def epsQ : ℚ := 1 / 1000000

/-- `vector_score_func(distance) = 1.0 / (distance + 1e-6)`; a zero
denominator raises `ZeroDivisionError` in Python. -/
def vector_score_func (distance : ℚ) : Except String ℚ :=
  if distance + epsQ = 0 then .error "ZeroDivisionError"
  else .ok (1 / (distance + epsQ))

/-- The vector-score branch of the fusion loop:
`vector_score_func(v_result["distance"]) if v_result and "distance" in v_result else 0.0`
for a present `v_result`; a non-numeric `distance` raises `TypeError` at
the addition. -/
def hit_vector_score (v : PyDict) : Except String ℚ :=
  match dget v "distance" with
  | some (.num d) => vector_score_func d
  | some (.str _) => .error "TypeError"
  | none => .ok 0

/-- One iteration of the `for id_ in all_ids` loop of `search_hybrid`:
builds the fused record for one identifier, `none` when the loop would
`continue` (identifier in neither map). -/
def fuse_record (vdict kdict : HitMap) (vector_weight keyword_weight : ℚ)
    (idv : PyVal) : Except String (Option PyDict) := do
  let vres := hmGet vdict idv
  let kres := hmGet kdict idv
  let vector_score : ℚ ←
    match vres with
    | some v => hit_vector_score v
    | none => .ok 0
  -- records stored in the maps are non-empty dicts, so Python's
  -- truthiness test `if kw_result` is presence
  let keyword_score : ℚ := if kres.isSome then 1 else 0
  let hybrid_score : ℚ :=
    vector_weight * vector_score + keyword_weight * keyword_score
  -- `base_info.update(v_result)` / `elif kw_result: ...` / `else: continue`
  match vres, kres with
  | none, none => return none
  | _, _ =>
    let base : PyDict :=
      match vres with
      | some v => v
      | none => kres.getD []
    let base :=
      if dget base "id" = none ∧ dget base "text_unit_id" = none then
        dset base "id" idv
      else base
    let r := dset base "hybrid_score" (.num hybrid_score)
    let r := dset r "vector_score" (.num vector_score)
    let r := dset r "keyword_score" (.num keyword_score)
    return some r

/-- The loop body of `search_hybrid` over an enumeration `order` of
`all_ids` (Python iterates an unordered `set`; the enumeration is an
explicit parameter here, constrained by `ValidEnum` in the theorems):
each enumerated identifier appends at most one record, in enumeration
order; an identifier in neither map is skipped (`continue`). -/
def processed_results (vdict kdict : HitMap) (vw kw : ℚ) :
    List PyVal → Except String (List PyDict)
  | [] => .ok []
  | idv :: rest => do
    let rec? ← fuse_record vdict kdict vw kw idv
    let tail ← processed_results vdict kdict vw kw rest
    match rec? with
    | some r => .ok (r :: tail)
    | none => .ok tail

/-- Sort key: `x.get("hybrid_score", 0.0)`. -/
def hybrid_key (d : PyDict) : ℚ :=
  match dget d "hybrid_score" with
  | some (.num q) => q
  | _ => 0

/-- Descending-by-`hybrid_score` order used by
`processed_results.sort(key=..., reverse=True)`. -/
def hybridGe (a b : PyDict) : Prop := hybrid_key b ≤ hybrid_key a

instance : DecidableRel hybridGe := fun a b => by
  unfold hybridGe; infer_instance

instance : IsTotal PyDict hybridGe :=
  ⟨fun a b => le_total (hybrid_key b) (hybrid_key a)⟩

instance : IsTrans PyDict hybridGe :=
  ⟨fun _ _ _ h1 h2 => le_trans h2 h1⟩

/-- Python `list.sort` is stable; `List.insertionSort` with the
descending relation is the same stable descending sort. -/
def sort_processed (l : List PyDict) : List PyDict :=
  l.insertionSort hybridGe

/-- Python slice `l[:k]` for an integer `k`: for `k ≥ 0` the first `k`
elements; for `k < 0` everything but the last `-k` (no coercion of a
negative `k` to zero happens in the source). -/
def pySlice (k : Int) (l : List PyDict) : List PyDict :=
  if 0 ≤ k then l.take k.toNat else l.take (l.length - (-k).toNat)

/-- The fusion step of `Project.search_hybrid`, lines 373-420: build the
two id-keyed maps, produce one record per enumerated identifier, sort by
`hybrid_score` descending (stable), truncate with `[:int(k)]`. -/
def search_hybrid (vector_results keyword_results : List PyDict)
    (k : Int) (vector_weight keyword_weight : ℚ) (order : List PyVal) :
    Except String (List PyDict) := do
  let vdict := build_hit_dict vector_results
  let kdict := build_hit_dict keyword_results
  let pr ← processed_results vdict kdict vector_weight keyword_weight order
  return pySlice k (sort_processed pr)

/-- The identifiers of `all_ids = set(vector_dict) | set(keyword_dict)`,
in some canonical order (the set order is irrelevant except for ties). -/
def union_ids (vdict kdict : HitMap) : List PyVal :=
  ((vdict.map Prod.fst) ++ (kdict.map Prod.fst)).dedup

/-- `order` is a legitimate enumeration of `all_ids`: no repeats, and
exactly the keys of the two maps. -/
def ValidEnum (vdict kdict : HitMap) (order : List PyVal) : Prop :=
  order.Nodup ∧ ∀ v, v ∈ order ↔ v ∈ union_ids vdict kdict

/-- The specified vector score for an identifier (spec §4.4 step 4):
`1 / (distance + ε)` when a vector hit with a numeric `distance` exists,
else `0`. -/
def spec_vector_score (vdict : HitMap) (idv : PyVal) : ℚ :=
  match hmGet vdict idv with
  | some v =>
    match dget v "distance" with
    | some (.num d) => 1 / (d + epsQ)
    | _ => 0
  | none => 0

/-- The specified keyword score: `1` when a keyword hit exists for the
identifier, else `0`. -/
def spec_keyword_score (kdict : HitMap) (idv : PyVal) : ℚ :=
  if (hmGet kdict idv).isSome then 1 else 0

/-- Strict descending order on `hybrid_score`. -/
def hybridGt (a b : PyDict) : Prop := hybrid_key b < hybrid_key a

instance : IsAntisymm PyDict hybridGt :=
  ⟨fun _ _ h1 h2 => absurd (lt_trans h1 h2) (lt_irrefl _)⟩

/-- The record produced for one identifier, as a plain function of the inputs
(used to compare two enumerations of the id set). -/
def fuse_record_fn (vdict kdict : HitMap) (vw kw : ℚ) (idv : PyVal) : Option PyDict :=
  match fuse_record vdict kdict vw kw idv with
  | .ok r? => r?
  | .error _ => none

/-! ## Keyword search (`Database.search_text_units_by_keywords`) -/

/-- A row of the `text_units` table, as returned by the keyword search
(`tu.id, tu.document_id, tu.sequence, tu.content, tu.content_type`). -/
structure TextUnitRow where
  id : Int
  document_id : Int
  sequence : Int
  content : String
  content_type : String
deriving DecidableEq

/-- SQLite's ASCII-only case folding: `A`-`Z` fold to lower case, all
other characters (including non-ASCII) are left unchanged. -/
def asciiLower (c : Char) : Char :=
  if 'A' ≤ c ∧ c ≤ 'Z' then Char.ofNat (c.toNat + 32) else c

/-- SQLite `LIKE` matching (default behaviour, no `ESCAPE`, no
`case_sensitive_like` pragma): `%` matches any sequence, `_` any single
character, and ordinary characters compare case-insensitively on ASCII. -/
def likeMatch : List Char → List Char → Bool
  | [], s => s.isEmpty
  | p :: ps, s =>
    if p = '%' then s.tails.any fun t => likeMatch ps t
    else if p = '_' then
      match s with
      | [] => false
      | _ :: t => likeMatch ps t
    else
      match s with
      | [] => false
      | c :: t => (asciiLower p == asciiLower c) && likeMatch ps t

/-- The pattern built by the source: a percent sign, the keyword, a
percent sign. -/
def likePattern (kw : String) : List Char :=
  '%' :: (kw.toList ++ ['%'])

/-- The `ORDER BY tu.document_id, tu.sequence` order. -/
def docSeqLe (a b : TextUnitRow) : Prop :=
  a.document_id < b.document_id ∨
    (a.document_id = b.document_id ∧ a.sequence ≤ b.sequence)

instance : DecidableRel docSeqLe := fun a b => by
  unfold docSeqLe; infer_instance

/-- `Database.search_text_units_by_keywords`: empty keyword list returns
`[]` (guard in the source); otherwise all rows whose `content` matches
`content LIKE '%kw%'` for at least one keyword (`OR` across keywords),
ordered by `(document_id, sequence)`. -/
def search_text_units_by_keywords (db : List TextUnitRow) (keywords : List String) :
    List TextUnitRow :=
  if keywords = [] then []
  else
    (db.filter fun u =>
      keywords.any fun kw => likeMatch (likePattern kw) u.content.toList).insertionSort docSeqLe

/-- Modelled from the spec: "contains any keyword as a case-sensitive
substring" (spec §6, Keyword Search collaborator) — plain substring
containment with no case folding, for comparison with the `LIKE`
semantics of the source. -/
def caseSensitiveSub (needle : List Char) : List Char → Bool
  | [] => needle.isEmpty
  | d :: ds => (needle.isPrefixOf (d :: ds)) || caseSensitiveSub needle ds

/-! ## Keyword extraction (`Project.search_by_keyword`) -/

/-- A parsed JSON value (the result of `json.loads` on collaborator
output). -/
inductive PyJson where
  | null
  | jbool (b : Bool)
  | jnum (q : ℚ)
  | jstr (s : String)
  | jarr (elems : List PyJson)
  | jobj (fields : List (String × PyJson))

/-- Lookup in a JSON object's field list (first binding wins, as in a
Python dict built by a JSON parser). -/
def jget : List (String × PyJson) → String → Option PyJson
  | [], _ => none
  | kv :: rest, key => if kv.1 = key then some kv.2 else jget rest key

/-- Python `str(...)` on a JSON scalar, used by
`[str(kw) for kw in loaded_json["keywords"]]`.  The claims only exercise
the degraded (malformed) paths, where this function is not reached; for
list/dict values Python would produce their repr, abstracted here. -/
def pyStrOfJson : PyJson → String
  | .null => "None"
  | .jbool true => "True"
  | .jbool false => "False"
  | .jnum q => toString q
  | .jstr s => s
  | .jarr _ => ""
  | .jobj _ => ""

/-- The keyword-extraction step of `Project.search_by_keyword`: the raw
model output is parsed (`none` = `json.JSONDecodeError`, caught);
the field `keywords` must exist on a dict and hold a list, otherwise the
keyword set degrades to `[]`. -/
def extract_keywords : Option PyJson → List String
  | none => []
  | some j =>
    match j with
    | .jobj fields =>
      match jget fields "keywords" with
      | some (.jarr l) => l.map pyStrOfJson
      | _ => []
    | _ => []

/-- `Project.search_by_keyword`, with the extraction output of the
external model as a parameter: extract keywords, then query the store. -/
def search_by_keyword (db : List TextUnitRow) (parsed : Option PyJson) :
    List TextUnitRow :=
  search_text_units_by_keywords db (extract_keywords parsed)

/-- The malformed-extraction conditions of the claim: unparsable JSON,
or parsed JSON that is not a dict carrying a `keywords` field. -/
def missing_keywords_field : Option PyJson → Prop
  | none => True
  | some (.jobj fields) => jget fields "keywords" = none
  | some _ => True

/-! ## Markdown decomposition pipeline
(`Project.split_text_unit` / `tree_to_text_unit` / `split_long_text`) -/

/-- Python `str.strip()` whitespace (ASCII part; the extra unicode
spaces Python also strips never occur in the claims). -/
def pyWhitespace (c : Char) : Bool :=
  c == ' ' || c == '\t' || c == '\n' || c == '\r' ||
    c == Char.ofNat 11 || c == Char.ofNat 12

/-- Python `s.strip()`. -/
def pyStrip (s : String) : String :=
  String.mk (((s.toList.dropWhile pyWhitespace).reverse.dropWhile pyWhitespace).reverse)

/-- An internal text-unit dict (`content`, `content_type`, `sequence`)
as produced by `tree_to_text_unit` / `split_text_unit`. -/
structure TUnit where
  content : String
  content_type : String
  sequence : Int
deriving DecidableEq

/-- The semantic-splitter collaborator: maps the over-long block to the
result of `json.loads(ask_chatgpt(...))`; `none` models output that is
not valid JSON (`json.loads` raises). -/
abbrev SplitterOracle := String → Option PyJson

/-- The well-formedness test of `split_long_text`:
`isinstance(loaded_json, dict) and "chunks" in loaded_json and isinstance(loaded_json["chunks"], list)`. -/
def chunks_well_shaped : PyJson → Bool
  | .jobj fields =>
    match jget fields "chunks" with
    | some (.jarr _) => true
    | _ => false
  | _ => false

/-- `Project.split_long_text`: parse the splitter output (raising on
invalid JSON), return it if well shaped, else return a dict whose `chunks` list is empty. -/
def split_long_text (oracle : SplitterOracle) (content : String) :
    Except String PyJson :=
  match oracle content with
  | none => .error "JSONDecodeError"
  | some j =>
    if chunks_well_shaped j then .ok j else .ok (.jobj [("chunks", .jarr [])])

/-- `split_texts_data.get("chunks", [])` (after `split_long_text` the
value is always a list). -/
def get_chunks : PyJson → List PyJson
  | .jobj fields =>
    match jget fields "chunks" with
    | some (.jarr l) => l
    | _ => []
  | _ => []

/-- `split_chunk["text"]`: raises `TypeError` on a non-dict chunk or a
non-string value (`heading + split_chunk["text"]`), `KeyError` on a
missing key. -/
def chunk_text : PyJson → Except String String
  | .jobj fields =>
    match jget fields "text" with
    | some (.jstr s) => .ok s
    | some _ => .error "TypeError"
    | none => .error "KeyError"
  | _ => .error "TypeError"

/-- `_append_text_unit(text, heading)` from `Project.tree_to_text_unit`:
blocks longer than 1000 characters (the *unprefixed* body) go through
the splitter and each returned chunk is committed as
`heading + chunk["text"]`; otherwise the block is committed directly as
`heading + text` when its stripped text is non-empty. -/
def append_text_unit (oracle : SplitterOracle) (text heading : String)
    (text_units : List TUnit) : Except String (List TUnit) :=
  if text.length > 1000 then do
    let d ← split_long_text oracle text
    (get_chunks d).foldlM
      (fun us c => do
        let t ← chunk_text c
        pure (us ++ [⟨heading ++ t, "text", (0 : Int)⟩]))
      text_units
  else if pyStrip text ≠ "" then
    .ok (text_units ++ [⟨heading ++ text, "text", (0 : Int)⟩])
  else
    .ok text_units

/-- A node of the custom tree built by `build_tree` (a Python dict with
`type`, `text`, optional `level`, `children`). -/
inductive CNode where
  | mk (type : String) (text : String) (level : Option Int) (children : List CNode)

/-! One iteration of the node loop of `Project.tree_to_text_unit` and
the full recursive call, mutually.  `tree_to_text_unit_node` processes a
single node and returns the updated loop state
(`text_units`, `text_flag`, `tmp_text`); `tree_to_text_unit_go` is one
full call of `tree_to_text_unit`: the loop over the sibling nodes
followed by the trailing
`if text_flag and tmp_text.strip(): _append_text_unit(...)`.
`tmp_hedding` of the source is always `""` (it is never assigned), so
`hedding_str + tmp_hedding` is `hedding_str ++ ""`. -/
mutual

/-- One node of the `tree_to_text_unit` loop; see the comment above. -/
def tree_to_text_unit_node (oracle : SplitterOracle) :
    CNode → String → List TUnit → Bool → String →
    Except String (List TUnit × Bool × String)
  | .mk ntype ntext _ nchildren, hedding_str, text_units, text_flag, tmp_text =>
    if ntype = "heading" then do
      let text_units ←
        if text_flag ∧ pyStrip tmp_text ≠ "" then
          append_text_unit oracle tmp_text hedding_str text_units
        else
          .ok text_units
      let text_units ←
        if nchildren.isEmpty then
          .ok text_units
        else
          tree_to_text_unit_go oracle nchildren (hedding_str ++ (ntext ++ "\n"))
            text_units false ""
      .ok (text_units, false, "")
    else do
      let tmp_text' := tmp_text ++ ntext ++ "\n"
      let text_units ←
        if nchildren.isEmpty then
          .ok text_units
        else
          tree_to_text_unit_go oracle nchildren (hedding_str ++ "") text_units false ""
      .ok (text_units, true, tmp_text')

/-- One full call of `Project.tree_to_text_unit`: the sibling loop then
the trailing flush. -/
def tree_to_text_unit_go (oracle : SplitterOracle) :
    List CNode → String → List TUnit → Bool → String → Except String (List TUnit)
  | [], hedding_str, text_units, text_flag, tmp_text =>
    if text_flag ∧ pyStrip tmp_text ≠ "" then
      append_text_unit oracle tmp_text hedding_str text_units
    else
      .ok text_units
  | n :: rest, hedding_str, text_units, text_flag, tmp_text => do
    let st ← tree_to_text_unit_node oracle n hedding_str text_units text_flag tmp_text
    tree_to_text_unit_go oracle rest hedding_str st.1 st.2.1 st.2.2

end

/-- `Project.tree_to_text_unit` (entry point: fresh loop state). -/
def tree_to_text_unit (oracle : SplitterOracle) (tree : List CNode)
    (text_units : List TUnit) (hedding_str : String) : Except String (List TUnit) :=
  tree_to_text_unit_go oracle tree hedding_str text_units false ""

/-- `for index, text_unit in enumerate(text_units): text_unit["sequence"] = index`. -/
def assign_sequences : Nat → List TUnit → List TUnit
  | _, [] => []
  | i, u :: rest => ⟨u.content, u.content_type, (i : Int)⟩ :: assign_sequences (i + 1) rest

/-- `Project.split_text_unit`, with the tree already built (the markdown
parse itself is the external `mistune` collaborator; every markdown
input yields some tree, so the theorems quantify over all trees). -/
def split_text_unit (oracle : SplitterOracle) (tree : List CNode) :
    Except String (List TUnit) := do
  let text_units ← tree_to_text_unit oracle tree [] ""
  .ok (assign_sequences 0 text_units)

def longText1001 : String := String.mk (List.replicate 1001 'x')

/-- The splitter contract of the spec (§6): every chunk it returns is
within the ceiling. -/
def bounded_chunks (oracle : SplitterOracle) : Prop :=
  ∀ s j, oracle s = some j → ∀ c ∈ get_chunks j, ∀ t, chunk_text c = .ok t →
    t.length ≤ 1000

/-- One committed unit from a flush event: the heading-path prefix
concatenated with the flushed body, `content_type` "text" and the
placeholder sequence `0`. -/
def commit_of (e : String × String) : TUnit :=
  ⟨e.1 ++ e.2, "text", (0 : Int)⟩

/-- The (heading-path, body) pairs committed by one `_append_text_unit`
call: on the direct path the guarded text itself (when its stripped form
is non-empty), on the split path the `text` field of each chunk the
splitter actually returned for the over-long block, in order.  This is
the observation the amended C2 is stated against: `append_text_unit`
appends exactly the `commit_of` image of these pairs (proved below). -/
def append_flushes (oracle : SplitterOracle) (text heading : String) :
    Except String (List (String × String)) :=
  if text.length > 1000 then do
    let d ← split_long_text oracle text
    (get_chunks d).foldlM
      (fun evs c => do
        let t ← chunk_text c
        pure (evs ++ [(heading, t)]))
      []
  else if pyStrip text ≠ "" then .ok [(heading, text)]
  else .ok []

mutual

/-- The flush events of one node of the `tree_to_text_unit` loop,
mirroring `tree_to_text_unit_node` with the committed units replaced by
their (heading-path, body) pairs; returns the events together with the
updated loop state. -/
def flushes_node (oracle : SplitterOracle) :
    CNode → String → Bool → String →
    Except String (List (String × String) × Bool × String)
  | .mk ntype ntext _ nchildren, hedding_str, text_flag, tmp_text =>
    if ntype = "heading" then
      Except.bind
        (if text_flag ∧ pyStrip tmp_text ≠ "" then
          append_flushes oracle tmp_text hedding_str
        else
          .ok [])
        (fun evs1 =>
          Except.bind
            (if nchildren.isEmpty then
              .ok []
            else
              flushes_go oracle nchildren (hedding_str ++ (ntext ++ "\n")) false "")
            (fun evs2 => .ok (evs1 ++ evs2, false, "")))
    else
      Except.bind
        (if nchildren.isEmpty then
          .ok []
        else
          flushes_go oracle nchildren (hedding_str ++ "") false "")
        (fun evs => .ok (evs, true, tmp_text ++ ntext ++ "\n"))

/-- The flush events of one full `tree_to_text_unit` call: the sibling
loop then the trailing flush, mirroring `tree_to_text_unit_go`. -/
def flushes_go (oracle : SplitterOracle) :
    List CNode → String → Bool → String → Except String (List (String × String))
  | [], hedding_str, text_flag, tmp_text =>
    if text_flag ∧ pyStrip tmp_text ≠ "" then
      append_flushes oracle tmp_text hedding_str
    else
      .ok []
  | n :: rest, hedding_str, text_flag, tmp_text =>
    Except.bind (flushes_node oracle n hedding_str text_flag tmp_text)
      (fun r =>
        Except.bind (flushes_go oracle rest hedding_str r.2.1 r.2.2)
          (fun evs2 => .ok (r.1 ++ evs2)))

end

/-- A 998-character body; prefixing it with the 4-character heading path
pushes the committed unit over the 1000-character ceiling. -/
def body998 : String := String.mk (List.replicate 998 'a')

/-! ## Markdown tree construction (`markdown_to_tree.py`)

The Python handlers mutate dict nodes shared between the `stack`, the
`tree` and other nodes' `children` lists.  The embedding models this
reference semantics with an explicit heap: nodes live in `heap`,
and `tree`, `stack` and `children` hold indices into it. -/

/-- A mistune AST node (`type`, `raw`, `attrs.level`, `info`,
`children`), the input of `build_tree`. -/
inductive MdAst where
  | mk (type : String) (raw : String) (attrsLevel : Option Int)
      (info : Option String) (children : List MdAst)

/-- The `type` field. -/
def MdAst.mtype : MdAst → String
  | .mk t _ _ _ _ => t

/-- The `raw` field (`node.get("raw", "")`). -/
def MdAst.raw : MdAst → String
  | .mk _ r _ _ _ => r

/-- The nested `attrs` / `level` lookup of the source, which defaults
to `0` when either key is missing. -/
def MdAst.attrsLevel : MdAst → Option Int
  | .mk _ _ l _ _ => l

/-- The `info` field of a code block (may be `None`). -/
def MdAst.info : MdAst → Option String
  | .mk _ _ _ i _ => i

/-- The `children` field (`node.get("children", [])`). -/
def MdAst.children : MdAst → List MdAst
  | .mk _ _ _ _ c => c

mutual

/-- `node_to_markdown`: recursive AST-to-markdown rendering used by the
list handler. -/
def node_to_markdown : MdAst → String
  | .mk ntype raw _ _ children =>
    if ntype = "text" then raw
    else if ntype = "strong" then
      "**" ++ String.join (node_to_markdown_list children) ++ "**"
    else if ntype = "block_text" then String.join (node_to_markdown_list children)
    else if ntype = "list_item" then "* " ++ String.join (node_to_markdown_list children)
    else if ntype = "paragraph" then String.join (node_to_markdown_list children)
    else ""

/-- `node_to_markdown` over a children list (`"".join(...)` pieces). -/
def node_to_markdown_list : List MdAst → List String
  | [] => []
  | n :: rest => node_to_markdown n :: node_to_markdown_list rest

end

/-- A custom tree node as built by the handlers; `children` holds heap
references. -/
structure HNode where
  type : String
  text : String
  level : Option Int
  children : List Nat

/-- The builder's state: the node heap plus the `tree` (roots) and
`stack` (open scopes) reference lists of `build_tree`. -/
structure BuildState where
  heap : List HNode
  tree : List Nat
  stack : List Nat

/-- `node.get("level")` of the node behind a reference. -/
def levelOf (heap : List HNode) (r : Nat) : Option Int :=
  match heap[r]? with
  | some n => n.level
  | none => none

/-- `stack[-1].get("level", float('-inf')) >= level`: a missing level
(`-inf`) never satisfies the comparison. -/
def levGe (heap : List HNode) (r : Nat) (lvl : Int) : Bool :=
  match levelOf heap r with
  | some l => lvl ≤ l
  | none => false

/-- `while stack and stack[-1].get("level", -inf) >= level: stack.pop()`. -/
def popScopes (heap : List HNode) (lvl : Int) (stack : List Nat) : List Nat :=
  (stack.reverse.dropWhile (fun r => levGe heap r lvl)).reverse

/-- `stack[-1].setdefault("children", []).append(item)`: append a child
reference to the node at `p`. -/
def appendChild (heap : List HNode) (p : Nat) (ref : Nat) : List HNode :=
  match heap[p]? with
  | some n => heap.set p (HNode.mk n.type n.text n.level (n.children ++ [ref]))
  | none => heap

/-- `"#" * level` (an empty string for a non-positive level). -/
def hashString (lvl : Int) : String :=
  String.mk (List.replicate lvl.toNat '#')

/-- `handle_heading`: pop all equal-or-deeper scopes, attach the new
heading under the remaining top scope (or as a root), push its scope. -/
def handle_heading (node : MdAst) (st : BuildState) : BuildState :=
  let level : Int := node.attrsLevel.getD 0
  let text : String :=
    match node.children with
    | c :: _ => if c.mtype = "text" then hashString level ++ " " ++ c.raw else ""
    | [] => ""
  let stack1 := popScopes st.heap level st.stack
  let item : HNode := HNode.mk "heading" text (some level) []
  let ref := st.heap.length
  let heap1 := st.heap ++ [item]
  match stack1.getLast? with
  | some p => BuildState.mk (appendChild heap1 p ref) st.tree (stack1 ++ [ref])
  | none => BuildState.mk heap1 (st.tree ++ [ref]) (stack1 ++ [ref])

/-- The shared attach logic of the non-heading handlers:
`if stack: stack[-1].setdefault("children", []).append(item) else: tree.append(item)`
(no scope is pushed). -/
def attachPlain (st : BuildState) (item : HNode) : BuildState :=
  let ref := st.heap.length
  let heap1 := st.heap ++ [item]
  match st.stack.getLast? with
  | some p => BuildState.mk (appendChild heap1 p ref) st.tree st.stack
  | none => BuildState.mk heap1 (st.tree ++ [ref]) st.stack

/-- `handle_paragraph`. -/
def handle_paragraph (node : MdAst) (st : BuildState) : BuildState :=
  let texts := node.children.filterMap
    (fun c => if c.mtype = "text" then some c.raw else none)
  attachPlain st (HNode.mk "paragraph" (String.join texts) none [])

/-- `handle_block_quote`. -/
def handle_block_quote (node : MdAst) (st : BuildState) : BuildState :=
  let texts := (node.children.filterMap
    (fun c =>
      if c.mtype = "paragraph" then
        some (c.children.filterMap
          (fun g => if g.mtype = "text" then some g.raw else none))
      else none)).flatten
  let quote_text := String.intercalate "\n" texts
  let quote_md := "> " ++ quote_text.replace "\n" "\n> "
  attachPlain st (HNode.mk "block_quote" quote_md none [])

/-- `handle_list`. -/
def handle_list (node : MdAst) (st : BuildState) : BuildState :=
  let list_md := node.children.foldl
    (fun acc li => acc ++ node_to_markdown li ++ "\n") ""
  attachPlain st (HNode.mk "list" (pyStrip list_md) none [])

/-- `handle_block_code` (`if info:` is Python truthiness: `None` and
`""` both select the bare fence). -/
def handle_block_code (node : MdAst) (st : BuildState) : BuildState :=
  let code := node.raw
  let code_md :=
    match node.info with
    | some i =>
      if i ≠ "" then "```" ++ i ++ "\n" ++ code ++ "\n```"
      else "```\n" ++ code ++ "\n```"
    | none => "```\n" ++ code ++ "\n```"
  attachPlain st (HNode.mk "block_code" code_md none [])

/-- The dispatch of `build_tree` (`handlers.get(node_type)`; unknown or
empty types are skipped). -/
def build_step (st : BuildState) (node : MdAst) : BuildState :=
  match node.mtype with
  | "heading" => handle_heading node st
  | "paragraph" => handle_paragraph node st
  | "block_quote" => handle_block_quote node st
  | "list" => handle_list node st
  | "block_code" => handle_block_code node st
  | _ => st

/-- `build_tree`, as the fold of `build_step` from the empty state. -/
def build_tree_state (ast : List MdAst) : BuildState :=
  ast.foldl build_step (BuildState.mk [] [] [])

/-- Strictly increasing levels between two stack references. -/
def levLt (heap : List HNode) (a b : Nat) : Prop :=
  ∃ x y, levelOf heap a = some x ∧ levelOf heap b = some y ∧ x < y

/-- The stack invariant: every open scope is a live heading node, and
levels strictly increase from the bottom of the stack to its top. -/
def StackOK (st : BuildState) : Prop :=
  (∀ r ∈ st.stack, (levelOf st.heap r).isSome) ∧
  st.stack.Pairwise (levLt st.heap)

/-- A heading AST node of the given level, as mistune produces it. -/
def hAst (lvl : Int) (txt : String) : MdAst :=
  MdAst.mk "heading" "" (some lvl) none [MdAst.mk "text" txt none none []]

theorem dget_dset_self (d : PyDict) (key : String) (v : PyVal) :
    dget (dset d key v) key = some v := by
  induction d with
  | nil => simp [dget, dset]
  | cons kv rest ih =>
    by_cases h : kv.1 = key
    · simp [dset, h, dget]
    · simp [dset, h, dget, ih]

theorem dget_dset_ne (d : PyDict) (key key' : String) (v : PyVal) (h : key' ≠ key) :
    dget (dset d key v) key' = dget d key' := by
  induction d with
  | nil => simp [dget, dset, (Ne.symm h)]
  | cons kv rest ih =>
    by_cases hk : kv.1 = key
    · subst hk
      simp [dset, dget, (Ne.symm h), ih]
    · simp only [dset, if_neg hk, dget, ih]

theorem except_bind_ok {ε α β : Type} (x : Except ε α) (f : α → Except ε β) (b : β)
    (h : x >>= f = .ok b) : ∃ a, x = .ok a ∧ f a = .ok b := by
  cases x with
  | ok a => exact ⟨a, rfl, h⟩
  | error e => simp [Bind.bind, Except.bind] at h

theorem dget_scores (base : PyDict) (hs vs ks : ℚ) :
    dget (dset (dset (dset base "hybrid_score" (.num hs)) "vector_score" (.num vs))
        "keyword_score" (.num ks)) "keyword_score" = some (.num ks) ∧
    dget (dset (dset (dset base "hybrid_score" (.num hs)) "vector_score" (.num vs))
        "keyword_score" (.num ks)) "vector_score" = some (.num vs) ∧
    dget (dset (dset (dset base "hybrid_score" (.num hs)) "vector_score" (.num vs))
        "keyword_score" (.num ks)) "hybrid_score" = some (.num hs) := by
  refine ⟨dget_dset_self _ _ _, ?_, ?_⟩
  · rw [dget_dset_ne _ _ _ _ (by decide), dget_dset_self]
  · rw [dget_dset_ne _ _ _ _ (by decide), dget_dset_ne _ _ _ _ (by decide), dget_dset_self]

theorem fuse_record_ok_some (vdict kdict : HitMap) (vw kw : ℚ) (idv : PyVal) (r : PyDict)
    (h : fuse_record vdict kdict vw kw idv = .ok (some r)) :
    (hmGet vdict idv ≠ none ∨ hmGet kdict idv ≠ none) ∧
    dget r "keyword_score" = some (.num (spec_keyword_score kdict idv)) ∧
    dget r "vector_score" = some (.num (spec_vector_score vdict idv)) ∧
    dget r "hybrid_score" =
      some (.num (vw * spec_vector_score vdict idv + kw * spec_keyword_score kdict idv)) := by
  unfold fuse_record at h
  cases hv : hmGet vdict idv with
  | some v =>
    have hvs : hit_vector_score v = .ok (spec_vector_score vdict idv) := by
      unfold hit_vector_score spec_vector_score vector_score_func
      rw [hv]
      cases hd : dget v "distance" with
      | some dv =>
        cases dv with
        | num d =>
          by_cases hz : d + epsQ = 0
          · exfalso
            simp only [hv, hd, hit_vector_score, vector_score_func, if_pos hz,
              Bind.bind, Except.bind] at h
            exact Except.noConfusion h
          · simp only [hd, if_neg hz]
        | str s =>
          exfalso
          simp only [hv, hd, hit_vector_score, Bind.bind, Except.bind] at h
          exact Except.noConfusion h
      | none => simp [hd]
    rw [hv] at h
    simp only [hvs, Bind.bind, Except.bind] at h
    cases hk : hmGet kdict idv <;>
    · rw [hk] at h
      simp only [Except.ok.injEq, Option.some.injEq, Pure.pure, Except.pure] at h
      subst h
      refine ⟨Or.inl (by simp), ?_, ?_, ?_⟩
      · rw [(dget_scores _ _ _ _).1]
        simp [spec_keyword_score, hk]
      · rw [(dget_scores _ _ _ _).2.1]
      · rw [(dget_scores _ _ _ _).2.2]
        simp [spec_keyword_score, hk]
  | none =>
    rw [hv] at h
    simp only [Bind.bind, Except.bind] at h
    cases hk : hmGet kdict idv with
    | some kwhit =>
      rw [hk] at h
      simp only [Except.ok.injEq, Option.some.injEq, Pure.pure, Except.pure] at h
      subst h
      have hvs : spec_vector_score vdict idv = 0 := by
        unfold spec_vector_score
        rw [hv]
      rw [hvs]
      refine ⟨Or.inr (by simp), ?_, ?_, ?_⟩
      · rw [(dget_scores _ _ _ _).1]
        simp [spec_keyword_score, hk]
      · rw [(dget_scores _ _ _ _).2.1]
      · rw [(dget_scores _ _ _ _).2.2]
        simp [spec_keyword_score, hk]
    | none =>
      rw [hk] at h
      simp [Pure.pure, Except.pure] at h

theorem processed_results_mem (vdict kdict : HitMap) (vw kw : ℚ)
    (order : List PyVal) (pr : List PyDict) (r : PyDict)
    (h : processed_results vdict kdict vw kw order = .ok pr) (hr : r ∈ pr) :
    ∃ idv, idv ∈ order ∧ fuse_record vdict kdict vw kw idv = .ok (some r) := by
  induction order generalizing pr with
  | nil =>
    unfold processed_results at h
    simp only [Except.ok.injEq] at h
    subst h
    cases hr
  | cons idv rest ih =>
    unfold processed_results at h
    obtain ⟨rec?, h1, h2⟩ := except_bind_ok _ _ _ h
    obtain ⟨tail, h3, h4⟩ := except_bind_ok _ _ _ h2
    cases rec? with
    | some r0 =>
      simp only [Except.ok.injEq] at h4
      subst h4
      rcases List.mem_cons.mp hr with hre | htl
      · subst hre
        exact ⟨idv, List.mem_cons_self _ _, h1⟩
      · obtain ⟨i, hi, hf⟩ := ih tail h3 htl
        exact ⟨i, List.mem_cons_of_mem _ hi, hf⟩
    | none =>
      simp only [Except.ok.injEq] at h4
      subst h4
      obtain ⟨i, hi, hf⟩ := ih tail h3 hr
      exact ⟨i, List.mem_cons_of_mem _ hi, hf⟩

theorem mem_sort_processed (l : List PyDict) (r : PyDict) :
    r ∈ sort_processed l ↔ r ∈ l :=
  (List.perm_insertionSort hybridGe l).mem_iff

theorem mem_pySlice (k : Int) (l : List PyDict) (r : PyDict) (h : r ∈ pySlice k l) :
    r ∈ l := by
  unfold pySlice at h
  by_cases hk : 0 ≤ k
  · rw [if_pos hk] at h
    exact List.mem_of_mem_take h
  · rw [if_neg hk] at h
    exact List.mem_of_mem_take h

/-- C1: every record produced by `search_hybrid` carries, for its
identifier, `vector_score = 1 / (distance + 1e-6)` when a vector hit
with a `distance` field exists and `0` otherwise, `keyword_score = 1`
exactly when a keyword hit exists, and
`hybrid_score = vector_weight * vector_score + keyword_weight * keyword_score`
(exact-rational reading of the float formulas). -/
theorem c1_main (vector_results keyword_results : List PyDict) (k : Int) (vw kw : ℚ)
    (order : List PyVal) (out : List PyDict) (r : PyDict)
    (hrun : search_hybrid vector_results keyword_results k vw kw order = .ok out)
    (hr : r ∈ out) :
    ∃ idv,
      (hmGet (build_hit_dict vector_results) idv ≠ none ∨
        hmGet (build_hit_dict keyword_results) idv ≠ none) ∧
      dget r "vector_score" =
        some (.num (spec_vector_score (build_hit_dict vector_results) idv)) ∧
      dget r "keyword_score" =
        some (.num (spec_keyword_score (build_hit_dict keyword_results) idv)) ∧
      dget r "hybrid_score" =
        some (.num (vw * spec_vector_score (build_hit_dict vector_results) idv +
          kw * spec_keyword_score (build_hit_dict keyword_results) idv)) := by
  unfold search_hybrid at hrun
  obtain ⟨pr, h1, h2⟩ := except_bind_ok _ _ _ hrun
  simp only [Except.ok.injEq, Pure.pure, Except.pure] at h2
  subst h2
  have hmem : r ∈ pr := (mem_sort_processed _ _).mp (mem_pySlice _ _ _ hr)
  obtain ⟨idv, _, hf⟩ := processed_results_mem _ _ _ _ _ _ _ h1 hmem
  obtain ⟨hne, hks, hvs, hhs⟩ := fuse_record_ok_some _ _ _ _ _ _ hf
  exact ⟨idv, hne, hvs, hks, hhs⟩

theorem c1_witness :
    (∃ idv,
      (hmGet (build_hit_dict [[("text_unit_id", .num 1), ("distance", .num 0)]]) idv ≠ none ∨
        hmGet (build_hit_dict ([] : List PyDict)) idv ≠ none) ∧
      dget [("text_unit_id", PyVal.num 1), ("distance", PyVal.num 0),
            ("hybrid_score", PyVal.num 100000000), ("vector_score", PyVal.num 1000000),
            ("keyword_score", PyVal.num 0)] "vector_score" =
        some (.num (spec_vector_score (build_hit_dict [[("text_unit_id", .num 1), ("distance", .num 0)]]) idv)) ∧
      dget [("text_unit_id", PyVal.num 1), ("distance", PyVal.num 0),
            ("hybrid_score", PyVal.num 100000000), ("vector_score", PyVal.num 1000000),
            ("keyword_score", PyVal.num 0)] "keyword_score" =
        some (.num (spec_keyword_score (build_hit_dict ([] : List PyDict)) idv)) ∧
      dget [("text_unit_id", PyVal.num 1), ("distance", PyVal.num 0),
            ("hybrid_score", PyVal.num 100000000), ("vector_score", PyVal.num 1000000),
            ("keyword_score", PyVal.num 0)] "hybrid_score" =
        some (.num (100 * spec_vector_score (build_hit_dict [[("text_unit_id", .num 1), ("distance", .num 0)]]) idv +
          (3/10) * spec_keyword_score (build_hit_dict ([] : List PyDict)) idv))) ∧
    (100 : ℚ) * (1 / (0 + epsQ)) + (3/10) * 0 = 100000000 := by
  constructor
  · exact c1_main [[("text_unit_id", .num 1), ("distance", .num 0)]] [] 10 100 (3/10)
      [.num 1]
      [[("text_unit_id", PyVal.num 1), ("distance", PyVal.num 0),
        ("hybrid_score", PyVal.num 100000000), ("vector_score", PyVal.num 1000000),
        ("keyword_score", PyVal.num 0)]]
      [("text_unit_id", PyVal.num 1), ("distance", PyVal.num 0),
       ("hybrid_score", PyVal.num 100000000), ("vector_score", PyVal.num 1000000),
       ("keyword_score", PyVal.num 0)]
      (by
        simp [search_hybrid, processed_results, build_hit_dict, make_id_key, pyOr, pyTruthy, dget,
              fuse_record, hmSet, hmGet, hit_vector_score, vector_score_func, epsQ, sort_processed,
              List.insertionSort, pySlice, dset, hybrid_key,
              Bind.bind, Except.bind, Pure.pure, Except.pure]
        norm_num)
      (by simp)
  · norm_num [epsQ]

theorem hmGet_isSome_iff (m : HitMap) (v : PyVal) :
    (hmGet m v).isSome ↔ v ∈ m.map Prod.fst := by
  induction m with
  | nil => simp [hmGet]
  | cons kv rest ih =>
    by_cases h : kv.1 = v
    · simp [hmGet, h]
    · simp [hmGet, h, ih, Ne.symm h]

theorem mem_union_ids (vdict kdict : HitMap) (v : PyVal) :
    v ∈ union_ids vdict kdict ↔ (hmGet vdict v).isSome ∨ (hmGet kdict v).isSome := by
  simp [union_ids, List.mem_dedup, hmGet_isSome_iff]

theorem fuse_record_some_of_mem (vdict kdict : HitMap) (vw kw : ℚ) (idv : PyVal)
    (rec? : Option PyDict)
    (hm : (hmGet vdict idv).isSome ∨ (hmGet kdict idv).isSome)
    (h : fuse_record vdict kdict vw kw idv = .ok rec?) : rec?.isSome := by
  unfold fuse_record at h
  cases hv : hmGet vdict idv with
  | some v =>
    rw [hv] at h
    cases hvs : hit_vector_score v with
    | ok q =>
      simp only [hvs, Bind.bind, Except.bind] at h
      cases hk : hmGet kdict idv <;>
      · rw [hk] at h
        simp only [Pure.pure, Except.pure, Except.ok.injEq] at h
        subst h
        simp
    | error e =>
      simp only [hvs, Bind.bind, Except.bind] at h
      exact Except.noConfusion h
  | none =>
    rw [hv] at h
    simp only [Bind.bind, Except.bind] at h
    cases hk : hmGet kdict idv with
    | some kwhit =>
      rw [hk] at h
      simp only [Pure.pure, Except.pure, Except.ok.injEq] at h
      subst h
      simp
    | none =>
      rw [hv, hk] at hm
      simp at hm

theorem processed_results_length (vdict kdict : HitMap) (vw kw : ℚ)
    (order : List PyVal) (pr : List PyDict)
    (hall : ∀ idv ∈ order, (hmGet vdict idv).isSome ∨ (hmGet kdict idv).isSome)
    (h : processed_results vdict kdict vw kw order = .ok pr) :
    pr.length = order.length := by
  induction order generalizing pr with
  | nil =>
    unfold processed_results at h
    simp only [Except.ok.injEq] at h
    subst h
    rfl
  | cons idv rest ih =>
    unfold processed_results at h
    obtain ⟨rec?, h1, h2⟩ := except_bind_ok _ _ _ h
    obtain ⟨tail, h3, h4⟩ := except_bind_ok _ _ _ h2
    have hsome := fuse_record_some_of_mem _ _ _ _ _ _
      (hall idv (List.mem_cons_self _ _)) h1
    cases rec? with
    | some r0 =>
      simp only [Except.ok.injEq] at h4
      subst h4
      have := ih tail (fun i hi => hall i (List.mem_cons_of_mem _ hi)) h3
      simp [this]
    | none => simp at hsome

/-- C4 amended: for a non-negative `k`, the fused output has length
`min k |union of ids|`. -/
theorem c4_main (vector_results keyword_results : List PyDict) (k : Int) (vw kw : ℚ)
    (order : List PyVal) (out : List PyDict)
    (hk : 0 ≤ k)
    (henum : ValidEnum (build_hit_dict vector_results) (build_hit_dict keyword_results) order)
    (hrun : search_hybrid vector_results keyword_results k vw kw order = .ok out) :
    out.length =
      min k.toNat
        (union_ids (build_hit_dict vector_results) (build_hit_dict keyword_results)).length := by
  unfold search_hybrid at hrun
  obtain ⟨pr, h1, h2⟩ := except_bind_ok _ _ _ hrun
  simp only [Except.ok.injEq, Pure.pure, Except.pure] at h2
  subst h2
  obtain ⟨hnd, hmem⟩ := henum
  have hall : ∀ idv ∈ order,
      (hmGet (build_hit_dict vector_results) idv).isSome ∨
      (hmGet (build_hit_dict keyword_results) idv).isSome := by
    intro idv hi
    exact (mem_union_ids _ _ _).mp ((hmem idv).mp hi)
  have hlen1 : pr.length = order.length :=
    processed_results_length _ _ _ _ _ _ hall h1
  have hlen2 : order.length =
      (union_ids (build_hit_dict vector_results) (build_hit_dict keyword_results)).length := by
    refine List.Perm.length_eq ?_
    exact (List.perm_ext_iff_of_nodup hnd (List.nodup_dedup _)).mpr hmem
  have hsort : (sort_processed pr).length = pr.length :=
    List.length_insertionSort _ _
  unfold pySlice
  rw [if_pos hk, List.length_take, hsort, hlen1, hlen2]

theorem c4_counterexample :
    search_hybrid [] [[("id", .num 1)], [("id", .num 2)]] (-1) 100 (3/10) [.num 1, .num 2] =
      .ok [[("id", PyVal.num 1), ("hybrid_score", PyVal.num (3/10)),
            ("vector_score", PyVal.num 0), ("keyword_score", PyVal.num 1)]] ∧
    ValidEnum (build_hit_dict []) (build_hit_dict [[("id", .num 1)], [("id", .num 2)]])
      [.num 1, .num 2] ∧
    (1 : ℕ) ≠ min ((-1 : Int).toNat)
      (union_ids (build_hit_dict []) (build_hit_dict [[("id", .num 1)], [("id", .num 2)]])).length := by
  refine ⟨?_, ⟨?_, ?_⟩, ?_⟩
  · simp [search_hybrid, processed_results, build_hit_dict, make_id_key, pyOr, pyTruthy, dget,
          fuse_record, hmSet, hmGet, hit_vector_score, vector_score_func, epsQ, sort_processed,
          List.insertionSort, List.orderedInsert, pySlice, dset, hybrid_key, hybridGe,
          Bind.bind, Except.bind, Pure.pure, Except.pure]
    try norm_num
  · simp [List.nodup_cons]
    try norm_num
  · intro v
    simp [union_ids, build_hit_dict, make_id_key, pyOr, pyTruthy, dget, hmSet, List.dedup]
  · simp [union_ids, build_hit_dict, make_id_key, pyOr, pyTruthy, dget, hmSet, List.dedup]
    try norm_num

theorem c4_witness :
    ([[("id", PyVal.num 1), ("hybrid_score", PyVal.num (3/10)),
       ("vector_score", PyVal.num 0), ("keyword_score", PyVal.num 1)],
      [("id", PyVal.num 2), ("hybrid_score", PyVal.num (3/10)),
       ("vector_score", PyVal.num 0), ("keyword_score", PyVal.num 1)]] : List PyDict).length =
      min ((5 : Int).toNat)
        (union_ids (build_hit_dict []) (build_hit_dict [[("id", .num 1)], [("id", .num 2)]])).length := by
  refine c4_main [] [[("id", .num 1)], [("id", .num 2)]] 5 100 (3/10) [.num 1, .num 2] _
    (by norm_num) ⟨?_, ?_⟩ ?_
  · simp [List.nodup_cons]
  · intro v
    simp [union_ids, build_hit_dict, make_id_key, pyOr, pyTruthy, dget, hmSet, List.dedup]
  · simp [search_hybrid, processed_results, build_hit_dict, make_id_key, pyOr, pyTruthy, dget,
          fuse_record, hmSet, hmGet, hit_vector_score, vector_score_func, epsQ, sort_processed,
          List.insertionSort, List.orderedInsert, pySlice, dset, hybrid_key, hybridGe,
          Bind.bind, Except.bind, Pure.pure, Except.pure]

theorem c5_counterexample :
    ValidEnum (build_hit_dict []) (build_hit_dict [[("id", .num 1)], [("id", .num 2)]])
      [.num 1, .num 2] ∧
    ValidEnum (build_hit_dict []) (build_hit_dict [[("id", .num 1)], [("id", .num 2)]])
      [.num 2, .num 1] ∧
    search_hybrid [] [[("id", .num 1)], [("id", .num 2)]] 10 100 (3/10) [.num 1, .num 2] ≠
      search_hybrid [] [[("id", .num 1)], [("id", .num 2)]] 10 100 (3/10) [.num 2, .num 1] := by
  refine ⟨⟨?_, ?_⟩, ⟨?_, ?_⟩, ?_⟩
  · simp [List.nodup_cons]
  · intro v
    simp [union_ids, build_hit_dict, make_id_key, pyOr, pyTruthy, dget, hmSet, List.dedup]
  · simp [List.nodup_cons]
    try norm_num
  · intro v
    simp [union_ids, build_hit_dict, make_id_key, pyOr, pyTruthy, dget, hmSet, List.dedup]
    tauto
  · intro h
    simp [search_hybrid, processed_results, build_hit_dict, make_id_key, pyOr, pyTruthy, dget,
          fuse_record, hmSet, hmGet, hit_vector_score, vector_score_func, epsQ, sort_processed,
          List.insertionSort, List.orderedInsert, pySlice, dset, hybrid_key, hybridGe,
          Bind.bind, Except.bind, Pure.pure, Except.pure] at h

theorem processed_results_eq_filterMap (vdict kdict : HitMap) (vw kw : ℚ)
    (order : List PyVal) (pr : List PyDict)
    (h : processed_results vdict kdict vw kw order = .ok pr) :
    pr = order.filterMap (fuse_record_fn vdict kdict vw kw) := by
  induction order generalizing pr with
  | nil =>
    unfold processed_results at h
    simp only [Except.ok.injEq] at h
    subst h
    rfl
  | cons idv rest ih =>
    unfold processed_results at h
    obtain ⟨rec?, h1, h2⟩ := except_bind_ok _ _ _ h
    obtain ⟨tail, h3, h4⟩ := except_bind_ok _ _ _ h2
    have hg : fuse_record_fn vdict kdict vw kw idv = rec? := by
      unfold fuse_record_fn
      rw [h1]
    cases rec? with
    | some r0 =>
      simp only [Except.ok.injEq] at h4
      subst h4
      simp [List.filterMap_cons, hg, ih tail h3]
    | none =>
      simp only [Except.ok.injEq] at h4
      subst h4
      simp [List.filterMap_cons, hg, ih tail h3]

theorem sort_processed_eq_of_perm (l1 l2 : List PyDict) (hperm : l1.Perm l2)
    (hdist : l1.Pairwise (fun a b => hybrid_key a ≠ hybrid_key b)) :
    sort_processed l1 = sort_processed l2 := by
  have hs1 : List.Sorted hybridGe (sort_processed l1) := List.sorted_insertionSort _ _
  have hs2 : List.Sorted hybridGe (sort_processed l2) := List.sorted_insertionSort _ _
  have hp : (sort_processed l1).Perm (sort_processed l2) :=
    ((List.perm_insertionSort hybridGe l1).trans hperm).trans
      (List.perm_insertionSort hybridGe l2).symm
  have hsymm : ∀ {x y : PyDict},
      (fun a b => hybrid_key a ≠ hybrid_key b) x y →
      (fun a b => hybrid_key a ≠ hybrid_key b) y x := fun h => Ne.symm h
  have hd1 : (sort_processed l1).Pairwise (fun a b => hybrid_key a ≠ hybrid_key b) :=
    (List.Perm.pairwise_iff hsymm (List.perm_insertionSort hybridGe l1)).mpr hdist
  have hd2 : (sort_processed l2).Pairwise (fun a b => hybrid_key a ≠ hybrid_key b) :=
    (List.Perm.pairwise_iff hsymm hp).mp hd1
  have hgt1 : List.Sorted hybridGt (sort_processed l1) :=
    (hs1.and hd1).imp (fun h => lt_of_le_of_ne h.1 (Ne.symm h.2))
  have hgt2 : List.Sorted hybridGt (sort_processed l2) :=
    (hs2.and hd2).imp (fun h => lt_of_le_of_ne h.1 (Ne.symm h.2))
  exact List.eq_of_perm_of_sorted hp hgt1 hgt2

/-- C5 amended: when all produced records carry pairwise-distinct hybrid
scores, the fused output does not depend on the enumeration order of the
identifier set. -/
theorem c5_main (vector_results keyword_results : List PyDict) (k : Int) (vw kw : ℚ)
    (o1 o2 : List PyVal) (pr1 pr2 : List PyDict)
    (h1 : ValidEnum (build_hit_dict vector_results) (build_hit_dict keyword_results) o1)
    (h2 : ValidEnum (build_hit_dict vector_results) (build_hit_dict keyword_results) o2)
    (hp1 : processed_results (build_hit_dict vector_results) (build_hit_dict keyword_results)
      vw kw o1 = .ok pr1)
    (hp2 : processed_results (build_hit_dict vector_results) (build_hit_dict keyword_results)
      vw kw o2 = .ok pr2)
    (hdist : pr1.Pairwise (fun a b => hybrid_key a ≠ hybrid_key b)) :
    search_hybrid vector_results keyword_results k vw kw o1 =
      search_hybrid vector_results keyword_results k vw kw o2 := by
  have horder : o1.Perm o2 := by
    refine (List.perm_ext_iff_of_nodup h1.1 h2.1).mpr ?_
    intro v
    rw [h1.2 v, h2.2 v]
  have hprperm : pr1.Perm pr2 := by
    rw [processed_results_eq_filterMap _ _ _ _ _ _ hp1,
        processed_results_eq_filterMap _ _ _ _ _ _ hp2]
    exact horder.filterMap _
  have hsorteq : sort_processed pr1 = sort_processed pr2 :=
    sort_processed_eq_of_perm _ _ hprperm hdist
  unfold search_hybrid
  simp only [hp1, hp2, Bind.bind, Except.bind, Pure.pure, Except.pure, hsorteq]

theorem c5_witness :
    search_hybrid [[("text_unit_id", .num 1), ("distance", .num 0)]] [[("id", .num 2)]]
      10 100 (3/10) [.num 1, .num 2] =
    search_hybrid [[("text_unit_id", .num 1), ("distance", .num 0)]] [[("id", .num 2)]]
      10 100 (3/10) [.num 2, .num 1] := by
  refine c5_main [[("text_unit_id", .num 1), ("distance", .num 0)]] [[("id", .num 2)]]
    10 100 (3/10) [.num 1, .num 2] [.num 2, .num 1]
    [[("text_unit_id", PyVal.num 1), ("distance", PyVal.num 0),
      ("hybrid_score", PyVal.num 100000000), ("vector_score", PyVal.num 1000000),
      ("keyword_score", PyVal.num 0)],
     [("id", PyVal.num 2), ("hybrid_score", PyVal.num (3/10)),
      ("vector_score", PyVal.num 0), ("keyword_score", PyVal.num 1)]]
    [[("id", PyVal.num 2), ("hybrid_score", PyVal.num (3/10)),
      ("vector_score", PyVal.num 0), ("keyword_score", PyVal.num 1)],
     [("text_unit_id", PyVal.num 1), ("distance", PyVal.num 0),
      ("hybrid_score", PyVal.num 100000000), ("vector_score", PyVal.num 1000000),
      ("keyword_score", PyVal.num 0)]]
    ⟨?_, ?_⟩ ⟨?_, ?_⟩ ?_ ?_ ?_
  · simp [List.nodup_cons]
    try norm_num
  · intro v
    simp [union_ids, build_hit_dict, make_id_key, pyOr, pyTruthy, dget, hmSet, List.dedup]
    try tauto
  · simp [List.nodup_cons]
    try norm_num
  · intro v
    simp [union_ids, build_hit_dict, make_id_key, pyOr, pyTruthy, dget, hmSet, List.dedup]
    try tauto
  · simp [processed_results, build_hit_dict, make_id_key, pyOr, pyTruthy, dget,
          fuse_record, hmSet, hmGet, hit_vector_score, vector_score_func, epsQ, dset,
          Bind.bind, Except.bind, Pure.pure, Except.pure]
    norm_num
  · simp [processed_results, build_hit_dict, make_id_key, pyOr, pyTruthy, dget,
          fuse_record, hmSet, hmGet, hit_vector_score, vector_score_func, epsQ, dset,
          Bind.bind, Except.bind, Pure.pure, Except.pure]
    norm_num
  · simp [hybrid_key, dget]
    norm_num

theorem hmGet_hmSet (m : HitMap) (k k' : PyVal) (v : PyDict) :
    hmGet (hmSet m k v) k' = if k = k' then some v else hmGet m k' := by
  induction m with
  | nil =>
    by_cases h : k = k' <;> simp [hmSet, hmGet, h]
  | cons kv rest ih =>
    by_cases hk : kv.1 = k
    · subst hk
      by_cases h : kv.1 = k' <;> simp [hmSet, hmGet, h]
    · by_cases h : kv.1 = k'
      · have hne : ¬(k = k') := fun he => hk (h.trans he.symm)
        have hne' : ¬(k' = k) := fun he => hne he.symm
        simp [hmSet, hmGet, hk, h, hne, hne']
      · simp [hmSet, hmGet, hk, h, ih]

theorem build_hit_dict_aux_mem (hits : List PyDict) (acc : HitMap)
    (R : PyVal → PyDict → Prop)
    (hacc : ∀ k v, hmGet acc k = some v → R k v)
    (hhits : ∀ item ∈ hits, ∀ k, make_id_key item = some k → R k item) :
    ∀ k v,
      hmGet (hits.foldl
        (fun m item =>
          match make_id_key item with
          | some key => hmSet m key item
          | none => m) acc) k = some v → R k v := by
  induction hits generalizing acc with
  | nil => simpa using hacc
  | cons item rest ih =>
    intro k v h
    simp only [List.foldl_cons] at h
    refine ih _ ?_ (fun it hit => hhits it (List.mem_cons_of_mem _ hit)) k v h
    intro k' v' h'
    cases hmk : make_id_key item with
    | some key =>
      rw [hmk] at h'
      rw [hmGet_hmSet] at h'
      by_cases hkeq : key = k'
      · rw [if_pos hkeq] at h'
        cases h'
        exact hkeq ▸ hhits item (List.mem_cons_self _ _) key hmk
      · rw [if_neg hkeq] at h'
        exact hacc _ _ h'
    | none =>
      rw [hmk] at h'
      exact hacc _ _ h'

theorem hmGet_build_hit_dict (hits : List PyDict) (idv : PyVal) (v : PyDict)
    (h : hmGet (build_hit_dict hits) idv = some v) :
    v ∈ hits ∧ make_id_key v = some idv := by
  refine build_hit_dict_aux_mem hits [] (fun k w => w ∈ hits ∧ make_id_key w = some k)
    ?_ ?_ idv v h
  · intro k w hw
    simp [hmGet] at hw
  · intro item hit k hk
    exact ⟨hit, hk⟩

theorem build_hit_dict_fold_mono (hits : List PyDict) (acc : HitMap) (k : PyVal)
    (h : (hmGet acc k).isSome) :
    (hmGet (hits.foldl
      (fun m it =>
        match make_id_key it with
        | some key => hmSet m key it
        | none => m) acc) k).isSome := by
  induction hits generalizing acc with
  | nil => simpa using h
  | cons it rest ih =>
    simp only [List.foldl_cons]
    refine ih _ ?_
    cases hmk : make_id_key it with
    | some key =>
      rw [hmGet_hmSet]
      by_cases hkeq : key = k
      · simp [if_pos hkeq]
      · simpa [if_neg hkeq] using h
    | none => exact h

theorem build_hit_dict_mem_keys (hits : List PyDict) (item : PyDict) (v : PyVal)
    (hmem : item ∈ hits) (hk : make_id_key item = some v) :
    (hmGet (build_hit_dict hits) v).isSome := by
  unfold build_hit_dict
  -- generalize the accumulator
  suffices h : ∀ acc : HitMap, (hmGet (hits.foldl
      (fun m it =>
        match make_id_key it with
        | some key => hmSet m key it
        | none => m) acc) v).isSome by
    exact h []
  induction hits with
  | nil => cases hmem
  | cons it rest ih =>
    intro acc
    rcases List.mem_cons.mp hmem with he | hr
    · subst he
      simp only [List.foldl_cons, hk]
      refine build_hit_dict_fold_mono rest _ v ?_
      rw [hmGet_hmSet]
      simp
    · simp only [List.foldl_cons]
      exact ih hr _

theorem fuse_record_payload (vdict kdict : HitMap) (vw kw : ℚ) (idv : PyVal) (r base : PyDict)
    (hbase : (hmGet vdict idv = some base) ∨ (hmGet vdict idv = none ∧ hmGet kdict idv = some base))
    (hnofix : ¬(dget base "id" = none ∧ dget base "text_unit_id" = none))
    (h : fuse_record vdict kdict vw kw idv = .ok (some r)) :
    ∀ fld, fld ≠ "hybrid_score" → fld ≠ "vector_score" → fld ≠ "keyword_score" →
      dget r fld = dget base fld := by
  unfold fuse_record at h
  rcases hbase with hv | ⟨hv, hk⟩
  · rw [hv] at h
    cases hvs : hit_vector_score base with
    | ok q =>
      simp only [hvs, Bind.bind, Except.bind] at h
      cases hk : hmGet kdict idv <;>
      · rw [hk] at h
        rw [if_neg hnofix] at h
        simp only [Pure.pure, Except.pure, Except.ok.injEq, Option.some.injEq] at h
        subst h
        intro fld h1 h2 h3
        rw [dget_dset_ne _ _ _ _ h3, dget_dset_ne _ _ _ _ h2, dget_dset_ne _ _ _ _ h1]
    | error e =>
      simp only [hvs, Bind.bind, Except.bind] at h
      exact Except.noConfusion h
  · rw [hv, hk] at h
    simp only [Bind.bind, Except.bind, Option.getD] at h
    rw [if_neg hnofix] at h
    simp only [Pure.pure, Except.pure, Except.ok.injEq, Option.some.injEq] at h
    subst h
    intro fld h1 h2 h3
    rw [dget_dset_ne _ _ _ _ h3, dget_dset_ne _ _ _ _ h2, dget_dset_ne _ _ _ _ h1]

theorem processed_results_forall2 (vdict kdict : HitMap) (vw kw : ℚ)
    (order : List PyVal) (pr : List PyDict)
    (hall : ∀ idv ∈ order, (hmGet vdict idv).isSome ∨ (hmGet kdict idv).isSome)
    (h : processed_results vdict kdict vw kw order = .ok pr) :
    List.Forall₂ (fun idv r => fuse_record vdict kdict vw kw idv = .ok (some r)) order pr := by
  induction order generalizing pr with
  | nil =>
    unfold processed_results at h
    simp only [Except.ok.injEq] at h
    subst h
    exact List.Forall₂.nil
  | cons idv rest ih =>
    unfold processed_results at h
    obtain ⟨rec?, h1, h2⟩ := except_bind_ok _ _ _ h
    obtain ⟨tail, h3, h4⟩ := except_bind_ok _ _ _ h2
    have hsome := fuse_record_some_of_mem _ _ _ _ _ _
      (hall idv (List.mem_cons_self _ _)) h1
    cases rec? with
    | some r0 =>
      simp only [Except.ok.injEq] at h4
      subst h4
      exact List.Forall₂.cons h1
        (ih tail (fun i hi => hall i (List.mem_cons_of_mem _ hi)) h3)
    | none => simp at hsome

theorem make_id_key_some_field (item : PyDict) (v : PyVal)
    (h : make_id_key item = some v) :
    ¬(dget item "id" = none ∧ dget item "text_unit_id" = none) := by
  rintro ⟨hid, htu⟩
  unfold make_id_key pyOr at h
  rw [htu, hid] at h
  exact Option.noConfusion h

/-- C7 (amended): under truthy identifier fields, the fusion step emits
exactly one record per distinct identifier of the union, payload fields
are taken from the vector hit when one exists (else the keyword hit),
and a hit is dropped only when both identifier fields are absent;
without the truthiness restriction the claim fails (see the
counterexample: a vector hit whose only identifier is the falsy `0` is
dropped). -/
theorem c7_main (vector_results keyword_results : List PyDict) (vw kw : ℚ)
    (order : List PyVal) (pr : List PyDict)
    (htruthy : ∀ item ∈ vector_results ++ keyword_results, ∀ v,
      dget item "text_unit_id" = some v → pyTruthy v)
    (henum : ValidEnum (build_hit_dict vector_results) (build_hit_dict keyword_results) order)
    (hp : processed_results (build_hit_dict vector_results) (build_hit_dict keyword_results)
      vw kw order = .ok pr) :
    pr.length =
      (union_ids (build_hit_dict vector_results) (build_hit_dict keyword_results)).length ∧
    List.Forall₂ (fun idv r =>
      (∀ v, hmGet (build_hit_dict vector_results) idv = some v →
        ∀ fld, fld ≠ "hybrid_score" → fld ≠ "vector_score" → fld ≠ "keyword_score" →
          dget r fld = dget v fld) ∧
      (hmGet (build_hit_dict vector_results) idv = none →
        ∀ kk, hmGet (build_hit_dict keyword_results) idv = some kk →
        ∀ fld, fld ≠ "hybrid_score" → fld ≠ "vector_score" → fld ≠ "keyword_score" →
          dget r fld = dget kk fld)) order pr ∧
    (∀ item ∈ vector_results ++ keyword_results,
      (make_id_key item = none ↔
        dget item "text_unit_id" = none ∧ dget item "id" = none) ∧
      (∀ v, make_id_key item = some v →
        v ∈ union_ids (build_hit_dict vector_results) (build_hit_dict keyword_results))) := by
  obtain ⟨hnd, hmem⟩ := henum
  have hall : ∀ idv ∈ order,
      (hmGet (build_hit_dict vector_results) idv).isSome ∨
      (hmGet (build_hit_dict keyword_results) idv).isSome :=
    fun idv hi => (mem_union_ids _ _ _).mp ((hmem idv).mp hi)
  refine ⟨?_, ?_, ?_⟩
  · rw [processed_results_length _ _ _ _ _ _ hall hp]
    exact List.Perm.length_eq ((List.perm_ext_iff_of_nodup hnd (List.nodup_dedup _)).mpr hmem)
  · refine (processed_results_forall2 _ _ _ _ _ _ hall hp).imp ?_
    intro idv r hfr
    constructor
    · intro v hv fld h1 h2 h3
      obtain ⟨_, hkey⟩ := hmGet_build_hit_dict _ _ _ hv
      exact fuse_record_payload _ _ _ _ _ _ _ (Or.inl hv)
        (make_id_key_some_field _ _ hkey) hfr fld h1 h2 h3
    · intro hv kk hk fld h1 h2 h3
      obtain ⟨_, hkey⟩ := hmGet_build_hit_dict _ _ _ hk
      exact fuse_record_payload _ _ _ _ _ _ _ (Or.inr ⟨hv, hk⟩)
        (make_id_key_some_field _ _ hkey) hfr fld h1 h2 h3
  · intro item hmem'
    constructor
    · constructor
      · intro hmk
        cases htu : dget item "text_unit_id" with
        | some w =>
          exfalso
          have hw := htruthy item hmem' w htu
          unfold make_id_key pyOr at hmk
          rw [htu] at hmk
          simp only [hw, if_pos] at hmk
          exact Option.noConfusion hmk
        | none =>
          refine ⟨rfl, ?_⟩
          unfold make_id_key pyOr at hmk
          rw [htu] at hmk
          exact hmk
      · rintro ⟨htu, hid⟩
        unfold make_id_key pyOr
        rw [htu, hid]
    · intro v hv
      rcases List.mem_append.mp hmem' with hl | hr
      · exact (mem_union_ids _ _ _).mpr (Or.inl (build_hit_dict_mem_keys _ _ _ hl hv))
      · exact (mem_union_ids _ _ _).mpr (Or.inr (build_hit_dict_mem_keys _ _ _ hr hv))

theorem c7_counterexample :
    dget [("text_unit_id", PyVal.num 0)] "text_unit_id" = some (.num 0) ∧
    ValidEnum (build_hit_dict [[("text_unit_id", .num 0)]]) (build_hit_dict []) [] ∧
    search_hybrid [[("text_unit_id", .num 0)]] [] 10 100 (3/10) [] = .ok [] := by
  refine ⟨by simp [dget], ⟨List.nodup_nil, ?_⟩, ?_⟩
  · intro v
    simp [union_ids, build_hit_dict, make_id_key, pyOr, pyTruthy, dget, hmSet, List.dedup]
  · simp [search_hybrid, processed_results, build_hit_dict, make_id_key, pyOr, pyTruthy, dget,
          hmSet, pySlice, sort_processed, List.insertionSort,
          Bind.bind, Except.bind, Pure.pure, Except.pure]

theorem c7_witness :
    ([[("text_unit_id", PyVal.num 1), ("distance", PyVal.num 0), ("text_unit_content", PyVal.str "A"),
       ("hybrid_score", PyVal.num 1000001), ("vector_score", PyVal.num 1000000),
       ("keyword_score", PyVal.num 1)],
      [("id", PyVal.num 2), ("hybrid_score", PyVal.num 1),
       ("vector_score", PyVal.num 0), ("keyword_score", PyVal.num 1)]] : List PyDict).length =
      (union_ids
        (build_hit_dict [[("text_unit_id", .num 1), ("distance", .num 0), ("text_unit_content", .str "A")]])
        (build_hit_dict [[("id", .num 1), ("content", .str "B")], [("id", .num 2)]])).length ∧
    List.Forall₂ (fun idv r =>
      (∀ v, hmGet (build_hit_dict
          [[("text_unit_id", .num 1), ("distance", .num 0), ("text_unit_content", .str "A")]]) idv = some v →
        ∀ fld, fld ≠ "hybrid_score" → fld ≠ "vector_score" → fld ≠ "keyword_score" →
          dget r fld = dget v fld) ∧
      (hmGet (build_hit_dict
          [[("text_unit_id", .num 1), ("distance", .num 0), ("text_unit_content", .str "A")]]) idv = none →
        ∀ kk, hmGet (build_hit_dict [[("id", .num 1), ("content", .str "B")], [("id", .num 2)]]) idv = some kk →
        ∀ fld, fld ≠ "hybrid_score" → fld ≠ "vector_score" → fld ≠ "keyword_score" →
          dget r fld = dget kk fld))
      [PyVal.num 1, PyVal.num 2]
      [[("text_unit_id", PyVal.num 1), ("distance", PyVal.num 0), ("text_unit_content", PyVal.str "A"),
        ("hybrid_score", PyVal.num 1000001), ("vector_score", PyVal.num 1000000),
        ("keyword_score", PyVal.num 1)],
       [("id", PyVal.num 2), ("hybrid_score", PyVal.num 1),
        ("vector_score", PyVal.num 0), ("keyword_score", PyVal.num 1)]] ∧
    (∀ item ∈ [[("text_unit_id", PyVal.num 1), ("distance", PyVal.num 0), ("text_unit_content", PyVal.str "A")]] ++
        [[("id", PyVal.num 1), ("content", PyVal.str "B")], [("id", PyVal.num 2)]],
      (make_id_key item = none ↔
        dget item "text_unit_id" = none ∧ dget item "id" = none) ∧
      (∀ v, make_id_key item = some v →
        v ∈ union_ids
          (build_hit_dict [[("text_unit_id", .num 1), ("distance", .num 0), ("text_unit_content", .str "A")]])
          (build_hit_dict [[("id", .num 1), ("content", .str "B")], [("id", .num 2)]]))) := by
  refine c7_main
    [[("text_unit_id", .num 1), ("distance", .num 0), ("text_unit_content", .str "A")]]
    [[("id", .num 1), ("content", .str "B")], [("id", .num 2)]]
    1 1 [.num 1, .num 2] _ ?_ ⟨?_, ?_⟩ ?_
  · intro item hmem v hv
    simp [dget] at hv hmem
    rcases hmem with h | h | h <;>
    · subst h
      simp [dget] at hv
      try (subst hv; simp [pyTruthy])
  · simp [List.nodup_cons]
    try norm_num
  · intro v
    simp [union_ids, build_hit_dict, make_id_key, pyOr, pyTruthy, dget, hmSet, List.mem_dedup]
    try tauto
  · simp [processed_results, build_hit_dict, make_id_key, pyOr, pyTruthy, dget,
          fuse_record, hmSet, hmGet, hit_vector_score, vector_score_func, epsQ, dset,
          Bind.bind, Except.bind, Pure.pure, Except.pure]
    norm_num

theorem likeMatch_percent (ps : List Char) (s : List Char) :
    likeMatch ('%' :: ps) s = true ↔ ∃ t, t <:+ s ∧ likeMatch ps t = true := by
  show (if ('%' : Char) = '%' then s.tails.any fun t => likeMatch ps t
    else if ('%' : Char) = '_' then
      match s with
      | [] => false
      | _ :: t => likeMatch ps t
    else
      match s with
      | [] => false
      | c :: t => (asciiLower '%' == asciiLower c) && likeMatch ps t) = true ↔ _
  rw [if_pos rfl, List.any_eq_true]
  constructor
  · rintro ⟨t, ht, hm⟩
    exact ⟨t, (List.mem_tails _ _).mp ht, hm⟩
  · rintro ⟨t, ht, hm⟩
    exact ⟨t, (List.mem_tails _ _).mpr ht, hm⟩

theorem likeMatch_nil_percent (t : List Char) : likeMatch ['%'] t = true := by
  rw [likeMatch_percent]
  exact ⟨[], List.nil_suffix, rfl⟩

theorem likeMatch_plain_cons (c : Char) (hc1 : c ≠ '%') (hc2 : c ≠ '_')
    (ps : List Char) (s : List Char) :
    likeMatch (c :: ps) s =
      match s with
      | [] => false
      | d :: t => (asciiLower c == asciiLower d) && likeMatch ps t := by
  show (if c = '%' then s.tails.any fun t => likeMatch ps t
    else if c = '_' then
      match s with
      | [] => false
      | _ :: t => likeMatch ps t
    else
      match s with
      | [] => false
      | d :: t => (asciiLower c == asciiLower d) && likeMatch ps t) = _
  rw [if_neg hc1, if_neg hc2]

theorem likeMatch_plain_append_percent (kw : List Char)
    (hw : ∀ c ∈ kw, c ≠ '%' ∧ c ≠ '_') (t : List Char) :
    likeMatch (kw ++ ['%']) t = true ↔
      kw.map asciiLower <+: t.map asciiLower := by
  induction kw generalizing t with
  | nil =>
    simp only [List.nil_append, List.map_nil]
    constructor
    · intro _
      exact List.nil_prefix
    · intro _
      exact likeMatch_nil_percent t
  | cons c cs ih =>
    obtain ⟨hc1, hc2⟩ := hw c (List.mem_cons_self _ _)
    rw [List.cons_append, likeMatch_plain_cons c hc1 hc2]
    cases t with
    | nil =>
      simp
    | cons d t' =>
      simp only [List.map_cons, List.cons_prefix_cons, Bool.and_eq_true, beq_iff_eq]
      rw [ih (fun x hx => hw x (List.mem_cons_of_mem _ hx))]

theorem likeMatch_pattern_iff (kw : String)
    (hw : ∀ c ∈ kw.toList, c ≠ '%' ∧ c ≠ '_') (s : List Char) :
    likeMatch (likePattern kw) s = true ↔
      kw.toList.map asciiLower <:+: s.map asciiLower := by
  unfold likePattern
  rw [likeMatch_percent]
  constructor
  · rintro ⟨t, ht, hm⟩
    rw [likeMatch_plain_append_percent _ hw] at hm
    exact List.infix_iff_prefix_suffix.mpr ⟨t.map asciiLower, hm, List.IsSuffix.map _ ht⟩
  · intro hinf
    obtain ⟨T, hpre, hsuf⟩ := List.infix_iff_prefix_suffix.mp hinf
    obtain ⟨pre, hps⟩ := hsuf
    obtain ⟨l₁, l₂, hsplit, hm1, hm2⟩ := List.map_eq_append_iff.mp hps.symm
    refine ⟨l₂, ⟨l₁, hsplit.symm⟩, ?_⟩
    rw [likeMatch_plain_append_percent _ hw, hm2]
    exact hpre

/-- C8 amended main theorem: for wildcard-free keywords, membership in
the result is case-insensitive (ASCII) substring matching, OR across
keywords. -/
theorem c8_main (db : List TextUnitRow) (keywords : List String) (u : TextUnitRow)
    (hne : keywords ≠ [])
    (hw : ∀ kw ∈ keywords, ∀ c ∈ kw.toList, c ≠ '%' ∧ c ≠ '_') :
    u ∈ search_text_units_by_keywords db keywords ↔
      u ∈ db ∧ ∃ kw ∈ keywords,
        kw.toList.map asciiLower <:+: u.content.toList.map asciiLower := by
  unfold search_text_units_by_keywords
  rw [if_neg hne]
  rw [(List.perm_insertionSort docSeqLe _).mem_iff, List.mem_filter]
  constructor
  · rintro ⟨hu, hany⟩
    obtain ⟨kw, hkw, hm⟩ := List.any_eq_true.mp hany
    exact ⟨hu, kw, hkw, (likeMatch_pattern_iff kw (hw kw hkw) _).mp hm⟩
  · rintro ⟨hu, kw, hkw, hinf⟩
    refine ⟨hu, List.any_eq_true.mpr ⟨kw, hkw, ?_⟩⟩
    exact (likeMatch_pattern_iff kw (hw kw hkw) _).mpr hinf

theorem c8_counterexample :
    search_text_units_by_keywords [⟨1, 1, 0, "A", "text"⟩] ["a"] =
      [⟨1, 1, 0, "A", "text"⟩] ∧
    caseSensitiveSub "a".toList "A".toList = false := by
  constructor
  · rfl
  · rfl

theorem c8_witness :
    (⟨1, 1, 0, "abC", "text"⟩ : TextUnitRow) ∈
      search_text_units_by_keywords [⟨1, 1, 0, "abC", "text"⟩] ["Bc"] ↔
      (⟨1, 1, 0, "abC", "text"⟩ : TextUnitRow) ∈ [(⟨1, 1, 0, "abC", "text"⟩ : TextUnitRow)] ∧
      ∃ kw ∈ ["Bc"],
        kw.toList.map asciiLower <:+: "abC".toList.map asciiLower :=
  c8_main [⟨1, 1, 0, "abC", "text"⟩] ["Bc"] ⟨1, 1, 0, "abC", "text"⟩
    (by decide) (by decide)

/-- C9: malformed extraction output degrades to the empty keyword set,
and searching with no keywords returns the empty list. -/
theorem c9_main (db : List TextUnitRow) (parsed : Option PyJson)
    (hmal : missing_keywords_field parsed) :
    search_by_keyword db parsed = search_text_units_by_keywords db [] ∧
    search_text_units_by_keywords db [] = [] := by
  have hkw : extract_keywords parsed = [] := by
    cases parsed with
    | none => rfl
    | some j =>
      cases j with
      | jobj fields =>
        simp only [missing_keywords_field] at hmal
        simp only [extract_keywords, hmal]
      | null => rfl
      | jbool b => rfl
      | jnum q => rfl
      | jstr s => rfl
      | jarr l => rfl
  constructor
  · unfold search_by_keyword
    rw [hkw]
  · rfl

theorem c9_witness :
    search_by_keyword [⟨1, 1, 0, "some stored content", "text"⟩] none =
      search_text_units_by_keywords [⟨1, 1, 0, "some stored content", "text"⟩] [] ∧
    search_text_units_by_keywords [⟨1, 1, 0, "some stored content", "text"⟩] [] = [] :=
  c9_main [⟨1, 1, 0, "some stored content", "text"⟩] none trivial

/-- C6 amended: for an over-long block, unparsable splitter output
raises (failing the ingestion), but well-formed JSON that is not a dict
with a `chunks` list silently yields zero units for the block. -/
theorem c6_main (oracle : SplitterOracle) (text heading : String)
    (text_units : List TUnit) (hlong : text.length > 1000) :
    (oracle text = none →
      append_text_unit oracle text heading text_units = .error "JSONDecodeError") ∧
    (∀ j, oracle text = some j → chunks_well_shaped j = false →
      append_text_unit oracle text heading text_units = .ok text_units) := by
  constructor
  · intro hnone
    unfold append_text_unit split_long_text
    rw [if_pos hlong, hnone]
    rfl
  · intro j hj hshape
    unfold append_text_unit split_long_text
    rw [if_pos hlong, hj]
    simp only [hshape, Bool.false_eq_true, if_false]
    rfl

set_option maxRecDepth 100000 in
theorem c6_counterexample :
    longText1001.length > 1000 ∧
    append_text_unit (fun _ => some (.jarr [])) longText1001 "" [] = .ok [] := by
  constructor
  · show 1000 < longText1001.length
    rw [show longText1001.length = 1001 from rfl]
    norm_num
  · rfl

set_option maxRecDepth 100000 in
theorem c6_witness :
    ((fun _ => (none : Option PyJson)) longText1001 = none →
      append_text_unit (fun _ => none) longText1001 "# H\n" [] = .error "JSONDecodeError") ∧
    (∀ j, (fun _ => (none : Option PyJson)) longText1001 = some j → chunks_well_shaped j = false →
      append_text_unit (fun _ => none) longText1001 "# H\n" [] = .ok []) :=
  c6_main (fun _ => none) longText1001 "# H\n" []
    (by
      show 1000 < longText1001.length
      rw [show longText1001.length = 1001 from rfl]
      norm_num)

theorem assign_sequences_spec (l : List TUnit) (i : Nat) :
    (assign_sequences i l).map (fun u => u.sequence) =
      (List.range' i l.length).map Int.ofNat ∧
    (assign_sequences i l).map (fun u => u.content) = l.map (fun u => u.content) ∧
    (assign_sequences i l).map (fun u => u.content_type) =
      l.map (fun u => u.content_type) := by
  induction l generalizing i with
  | nil => simp [assign_sequences]
  | cons u rest ih =>
    obtain ⟨h1, h2, h3⟩ := ih (i + 1)
    simp [assign_sequences, List.range', h1, h2, h3]

/-- C3: after `split_text_unit`, the `sequence` fields are exactly
`0, 1, …, n-1` in list order, and content and content type are the
candidate list's, unreordered. -/
theorem c3_main (oracle : SplitterOracle) (tree : List CNode) (cands units : List TUnit)
    (hc : tree_to_text_unit oracle tree [] "" = .ok cands)
    (hu : split_text_unit oracle tree = .ok units) :
    units.map (fun u => u.sequence) = (List.range cands.length).map Int.ofNat ∧
    units.map (fun u => u.content) = cands.map (fun u => u.content) ∧
    units.map (fun u => u.content_type) = cands.map (fun u => u.content_type) := by
  unfold split_text_unit at hu
  rw [hc] at hu
  simp only [Bind.bind, Except.bind, Except.ok.injEq] at hu
  subst hu
  obtain ⟨h1, h2, h3⟩ := assign_sequences_spec cands 0
  rw [List.range_eq_range']
  exact ⟨h1, h2, h3⟩

theorem c3_witness :
    ([⟨"a\n", "text", (0 : Int)⟩, ⟨"# B\n" ++ ("b\n"), "text", (1 : Int)⟩] : List TUnit).map
        (fun u => u.sequence) =
      (List.range ([⟨"a\n", "text", (0 : Int)⟩,
        ⟨"# B\n" ++ ("b" ++ "\n"), "text", (0 : Int)⟩] : List TUnit).length).map Int.ofNat ∧
    ([⟨"a\n", "text", (0 : Int)⟩, ⟨"# B\n" ++ ("b\n"), "text", (1 : Int)⟩] : List TUnit).map
        (fun u => u.content) =
      ([⟨"a\n", "text", (0 : Int)⟩,
        ⟨"# B\n" ++ ("b" ++ "\n"), "text", (0 : Int)⟩] : List TUnit).map (fun u => u.content) ∧
    ([⟨"a\n", "text", (0 : Int)⟩, ⟨"# B\n" ++ ("b\n"), "text", (1 : Int)⟩] : List TUnit).map
        (fun u => u.content_type) =
      ([⟨"a\n", "text", (0 : Int)⟩,
        ⟨"# B\n" ++ ("b" ++ "\n"), "text", (0 : Int)⟩] : List TUnit).map
        (fun u => u.content_type) :=
  c3_main (fun _ => none)
    [CNode.mk "paragraph" "a" none [],
     CNode.mk "heading" "# B" (some 1) [CNode.mk "paragraph" "b" none []]]
    [⟨"a\n", "text", (0 : Int)⟩, ⟨"# B\n" ++ ("b" ++ "\n"), "text", (0 : Int)⟩]
    [⟨"a\n", "text", (0 : Int)⟩, ⟨"# B\n" ++ ("b\n"), "text", (1 : Int)⟩]
    (by rfl) (by rfl)

theorem except_bind_ok2 {ε α β : Type} (x : Except ε α) (f : α → Except ε β) (b : β)
    (h : Except.bind x f = .ok b) : ∃ a, x = .ok a ∧ f a = .ok b := by
  cases x with
  | ok a => exact ⟨a, rfl, h⟩
  | error e => simp [Except.bind] at h

theorem foldlM_units_flushes (heading : String) (chunks : List PyJson) :
    ∀ (units acc_us : List TUnit) (acc_ev : List (String × String)) (us : List TUnit),
      acc_us = units ++ acc_ev.map commit_of →
      chunks.foldlM
        (fun us c => do
          let t ← chunk_text c
          pure (us ++ [(⟨heading ++ t, "text", (0 : Int)⟩ : TUnit)]))
        acc_us = (Except.ok us : Except String (List TUnit)) →
      ∃ evs, chunks.foldlM
        (fun evs c => do
          let t ← chunk_text c
          pure (evs ++ [(heading, t)]))
        acc_ev = (Except.ok evs : Except String (List (String × String))) ∧
        us = units ++ evs.map commit_of := by
  induction chunks with
  | nil =>
    intro units acc_us acc_ev us hacc h
    simp only [List.foldlM_nil, Pure.pure, Except.pure, Except.ok.injEq] at h
    subst h
    exact ⟨acc_ev, rfl, hacc⟩
  | cons c cs ih =>
    intro units acc_us acc_ev us hacc h
    simp only [List.foldlM_cons] at h
    obtain ⟨acc1, h1, h2⟩ := except_bind_ok _ _ _ h
    obtain ⟨t, ht1, ht2⟩ := except_bind_ok _ _ _ h1
    simp only [Pure.pure, Except.pure, Except.ok.injEq] at ht2
    subst ht2
    obtain ⟨evs, he1, he2⟩ := ih units _ (acc_ev ++ [(heading, t)]) us
      (by rw [hacc, List.map_append, List.append_assoc]; rfl) h2
    refine ⟨evs, ?_, he2⟩
    simp only [List.foldlM_cons, ht1, Bind.bind, Except.bind, Pure.pure, Except.pure]
    exact he1

theorem append_text_unit_flushes (oracle : SplitterOracle) (text heading : String)
    (units us : List TUnit)
    (h : append_text_unit oracle text heading units = .ok us) :
    ∃ evs, append_flushes oracle text heading = .ok evs ∧
      us = units ++ evs.map commit_of := by
  unfold append_text_unit at h
  unfold append_flushes
  by_cases hlen : text.length > 1000
  · rw [if_pos hlen] at h ⊢
    obtain ⟨d, hd1, hd2⟩ := except_bind_ok _ _ _ h
    obtain ⟨evs, he1, he2⟩ := foldlM_units_flushes heading (get_chunks d)
      units units [] us (by simp) hd2
    refine ⟨evs, ?_, he2⟩
    rw [hd1]
    simpa only [Bind.bind, Except.bind] using he1
  · rw [if_neg hlen] at h ⊢
    by_cases hstrip : pyStrip text ≠ ""
    · rw [if_pos hstrip] at h ⊢
      injection h with h
      subst h
      exact ⟨[(heading, text)], rfl, rfl⟩
    · rw [if_neg hstrip] at h ⊢
      injection h with h
      subst h
      exact ⟨[], rfl, by simp⟩

theorem tree_go_flushes (oracle : SplitterOracle)
    (tree : List CNode) (hedding_str : String) (text_units : List TUnit)
    (text_flag : Bool) (tmp_text : String) :
    ∀ us, tree_to_text_unit_go oracle tree hedding_str text_units text_flag tmp_text =
        .ok us →
      ∃ evs, flushes_go oracle tree hedding_str text_flag tmp_text = .ok evs ∧
        us = text_units ++ evs.map commit_of := by
  refine tree_to_text_unit_go.induct oracle
    (fun n hedding units flag tmp =>
      ∀ st, tree_to_text_unit_node oracle n hedding units flag tmp = .ok st →
        ∃ r, flushes_node oracle n hedding flag tmp = .ok r ∧
          st.1 = units ++ r.1.map commit_of ∧ st.2.1 = r.2.1 ∧ st.2.2 = r.2.2)
    (fun tr hedding units flag tmp =>
      ∀ us, tree_to_text_unit_go oracle tr hedding units flag tmp = .ok us →
        ∃ evs, flushes_go oracle tr hedding flag tmp = .ok evs ∧
          us = units ++ evs.map commit_of)
    ?_ ?_ ?_ ?_ ?_ ?_ ?_ tree hedding_str text_units text_flag tmp_text
  · -- heading node, pending text flushed
    intro ntext level nchildren hedding units flag tmp hflush ih st hnode
    unfold tree_to_text_unit_node at hnode
    rw [if_pos rfl] at hnode
    rw [if_pos hflush] at hnode
    obtain ⟨u1, h1, h2⟩ := except_bind_ok _ _ _ hnode
    obtain ⟨evs1, he1, he2⟩ := append_text_unit_flushes oracle _ _ _ _ h1
    dsimp only [] at h2
    unfold flushes_node
    rw [if_pos rfl, if_pos hflush, he1]
    by_cases hemp : nchildren.isEmpty
    · rw [if_pos hemp] at h2 ⊢
      obtain ⟨u2, h3, h4⟩ := except_bind_ok _ _ _ h2
      injection h3 with h3
      subst h3
      simp only [Except.ok.injEq] at h4
      subst h4
      exact ⟨(evs1 ++ [], false, ""), rfl, by simp [he2], rfl, rfl⟩
    · rw [if_neg hemp] at h2 ⊢
      obtain ⟨u2, h3, h4⟩ := except_bind_ok _ _ _ h2
      simp only [Except.ok.injEq] at h4
      subst h4
      obtain ⟨evs2, hf1, hf2⟩ := ih u1 u2 h3
      refine ⟨(evs1 ++ evs2, false, ""), ?_, ?_, rfl, rfl⟩
      · rw [hf1]
        rfl
      · rw [hf2, he2, List.map_append, List.append_assoc]
  · -- heading node, nothing to flush
    intro ntext level nchildren hedding units flag tmp hnoflush ih st hnode
    unfold tree_to_text_unit_node at hnode
    rw [if_pos rfl] at hnode
    rw [if_neg hnoflush] at hnode
    obtain ⟨u1, h1, h2⟩ := except_bind_ok _ _ _ hnode
    injection h1 with h1
    subst h1
    dsimp only [] at h2
    unfold flushes_node
    rw [if_pos rfl, if_neg hnoflush]
    by_cases hemp : nchildren.isEmpty
    · rw [if_pos hemp] at h2 ⊢
      obtain ⟨u2, h3, h4⟩ := except_bind_ok _ _ _ h2
      injection h3 with h3
      subst h3
      simp only [Except.ok.injEq] at h4
      subst h4
      exact ⟨([] ++ [], false, ""), rfl, by simp, rfl, rfl⟩
    · rw [if_neg hemp] at h2 ⊢
      obtain ⟨u2, h3, h4⟩ := except_bind_ok _ _ _ h2
      simp only [Except.ok.injEq] at h4
      subst h4
      obtain ⟨evs2, hf1, hf2⟩ := ih units u2 h3
      refine ⟨([] ++ evs2, false, ""), ?_, ?_, rfl, rfl⟩
      · rw [hf1]
        rfl
      · simpa using hf2
  · -- non-heading node without children
    intro ntype ntext level nchildren hedding units flag tmp hnh hemp st hnode
    unfold tree_to_text_unit_node at hnode
    rw [if_neg hnh] at hnode
    rw [if_pos hemp] at hnode
    obtain ⟨u1, h1, h2⟩ := except_bind_ok _ _ _ hnode
    injection h1 with h1
    subst h1
    simp only [Pure.pure, Except.pure, Except.ok.injEq] at h2
    subst h2
    unfold flushes_node
    rw [if_neg hnh, if_pos hemp]
    exact ⟨([], true, tmp ++ ntext ++ "\n"), rfl, by simp, rfl, rfl⟩
  · -- non-heading node with children
    intro ntype ntext level nchildren hedding units flag tmp hnh hemp ih st hnode
    unfold tree_to_text_unit_node at hnode
    rw [if_neg hnh] at hnode
    rw [if_neg hemp] at hnode
    obtain ⟨u1, h1, h2⟩ := except_bind_ok _ _ _ hnode
    simp only [Pure.pure, Except.pure, Except.ok.injEq] at h2
    subst h2
    obtain ⟨evs, hf1, hf2⟩ := ih u1 h1
    unfold flushes_node
    rw [if_neg hnh, if_neg hemp]
    exact ⟨(evs, true, tmp ++ ntext ++ "\n"), by rw [hf1]; rfl, hf2, rfl, rfl⟩
  · -- end of the node list, trailing flush
    intro hedding units flag tmp hflush us h
    unfold tree_to_text_unit_go at h
    rw [if_pos hflush] at h
    obtain ⟨evs, he1, he2⟩ := append_text_unit_flushes oracle _ _ _ _ h
    refine ⟨evs, ?_, he2⟩
    unfold flushes_go
    rw [if_pos hflush]
    exact he1
  · -- end of the node list, nothing pending
    intro hedding units flag tmp hnoflush us h
    unfold tree_to_text_unit_go at h
    rw [if_neg hnoflush] at h
    injection h with h
    subst h
    refine ⟨[], ?_, by simp⟩
    unfold flushes_go
    rw [if_neg hnoflush]
  · -- loop step
    intro n rest hedding units flag tmp ihn ihrest us h
    unfold tree_to_text_unit_go at h
    obtain ⟨st, h1, h2⟩ := except_bind_ok _ _ _ h
    obtain ⟨r, hr1, hr2, hr3, hr4⟩ := ihn st h1
    rw [hr3, hr4] at h2
    obtain ⟨evs2, hf1, hf2⟩ := ihrest ⟨units ++ r.1.map commit_of, r.2.1, r.2.2⟩ us
      (by rw [← hr2]; exact h2)
    refine ⟨r.1 ++ evs2, ?_, ?_⟩
    · unfold flushes_go
      simp only [hr1, hf1, Except.bind]
    · rw [hf2]
      simp [List.map_append, List.append_assoc]

theorem foldlM_flushes_bounded (heading : String) (chunks : List PyJson)
    (hc : ∀ c ∈ chunks, ∀ t, chunk_text c = .ok t → t.length ≤ 1000) :
    ∀ (acc evs : List (String × String)),
      (∀ e ∈ acc, (e : String × String).2.length ≤ 1000) →
      chunks.foldlM
        (fun evs c => do
          let t ← chunk_text c
          pure (evs ++ [(heading, t)]))
        acc = (Except.ok evs : Except String (List (String × String))) →
      ∀ e ∈ evs, e.2.length ≤ 1000 := by
  induction chunks with
  | nil =>
    intro acc evs hacc h
    simp only [List.foldlM_nil, Pure.pure, Except.pure, Except.ok.injEq] at h
    subst h
    exact hacc
  | cons c cs ih =>
    intro acc evs hacc h
    simp only [List.foldlM_cons] at h
    obtain ⟨acc1, h1, h2⟩ := except_bind_ok _ _ _ h
    obtain ⟨t, ht1, ht2⟩ := except_bind_ok _ _ _ h1
    simp only [Pure.pure, Except.pure, Except.ok.injEq] at ht2
    subst ht2
    refine ih (fun c2 hc2 => hc c2 (List.mem_cons_of_mem _ hc2)) _ evs ?_ h2
    intro e he
    rcases List.mem_append.mp he with hl | hr
    · exact hacc e hl
    · simp only [List.mem_singleton] at hr
      subst hr
      exact hc c (List.mem_cons_self _ _) t ht1

theorem append_flushes_bounded (oracle : SplitterOracle)
    (hb : bounded_chunks oracle) (text heading : String)
    (evs : List (String × String))
    (h : append_flushes oracle text heading = .ok evs) :
    ∀ e ∈ evs, e.2.length ≤ 1000 := by
  unfold append_flushes at h
  by_cases hlen : text.length > 1000
  · rw [if_pos hlen] at h
    obtain ⟨d, hd1, hd2⟩ := except_bind_ok _ _ _ h
    unfold split_long_text at hd1
    cases ho : oracle text with
    | none =>
      simp only [ho] at hd1
      exact Except.noConfusion hd1
    | some j =>
      simp only [ho] at hd1
      by_cases hshape : chunks_well_shaped j = true
      · rw [if_pos hshape] at hd1
        injection hd1 with hd1
        subst hd1
        exact foldlM_flushes_bounded heading _ (hb text _ ho) [] evs (by simp) hd2
      · rw [if_neg hshape] at hd1
        injection hd1 with hd1
        subst hd1
        have hz : get_chunks (PyJson.jobj [("chunks", PyJson.jarr [])]) = [] := rfl
        rw [hz] at hd2
        simp only [List.foldlM_nil, Pure.pure, Except.pure, Except.ok.injEq] at hd2
        subst hd2
        intro e he
        cases he
  · rw [if_neg hlen] at h
    by_cases hstrip : pyStrip text ≠ ""
    · rw [if_pos hstrip] at h
      injection h with h
      subst h
      intro e he
      simp only [List.mem_singleton] at he
      subst he
      simp only [not_lt] at hlen
      exact hlen
    · rw [if_neg hstrip] at h
      injection h with h
      subst h
      intro e he
      cases he

theorem flushes_go_bounded (oracle : SplitterOracle) (hb : bounded_chunks oracle)
    (tree : List CNode) (hedding_str : String) (text_flag : Bool) (tmp_text : String) :
    ∀ evs, flushes_go oracle tree hedding_str text_flag tmp_text = .ok evs →
      ∀ e ∈ evs, e.2.length ≤ 1000 := by
  refine flushes_go.induct oracle
    (fun n hedding flag tmp =>
      ∀ r, flushes_node oracle n hedding flag tmp = .ok r →
        ∀ e ∈ r.1, (e : String × String).2.length ≤ 1000)
    (fun tr hedding flag tmp =>
      ∀ evs, flushes_go oracle tr hedding flag tmp = .ok evs →
        ∀ e ∈ evs, (e : String × String).2.length ≤ 1000)
    ?_ ?_ ?_ ?_ ?_ tree hedding_str text_flag tmp_text
  · -- heading node
    intro ntext level nchildren hedding flag tmp ih r hr
    unfold flushes_node at hr
    rw [if_pos rfl] at hr
    obtain ⟨evs1, h1, h2⟩ := except_bind_ok2 _ _ _ hr
    obtain ⟨evs2, h3, h4⟩ := except_bind_ok2 _ _ _ h2
    simp only [Except.ok.injEq] at h4
    subst h4
    intro e he
    rcases List.mem_append.mp he with hl | hr2
    · by_cases hflush : flag = true ∧ pyStrip tmp ≠ ""
      · rw [if_pos hflush] at h1
        exact append_flushes_bounded oracle hb _ _ _ h1 e hl
      · rw [if_neg hflush] at h1
        injection h1 with h1
        subst h1
        cases hl
    · by_cases hemp : nchildren.isEmpty
      · rw [if_pos hemp] at h3
        injection h3 with h3
        subst h3
        cases hr2
      · rw [if_neg hemp] at h3
        exact ih evs2 h3 e hr2
  · -- non-heading node
    intro ntype ntext level nchildren hedding flag tmp hnh ih r hr
    unfold flushes_node at hr
    rw [if_neg hnh] at hr
    obtain ⟨evs1, h1, h2⟩ := except_bind_ok2 _ _ _ hr
    simp only [Except.ok.injEq] at h2
    subst h2
    intro e he
    by_cases hemp : nchildren.isEmpty
    · rw [if_pos hemp] at h1
      injection h1 with h1
      subst h1
      cases he
    · rw [if_neg hemp] at h1
      exact ih evs1 h1 e he
  · -- end of the node list, trailing flush
    intro hedding flag tmp hflush evs h
    unfold flushes_go at h
    rw [if_pos hflush] at h
    exact append_flushes_bounded oracle hb _ _ _ h
  · -- end of the node list, nothing pending
    intro hedding flag tmp hnoflush evs h
    unfold flushes_go at h
    rw [if_neg hnoflush] at h
    injection h with h
    subst h
    intro e he
    cases he
  · -- loop step
    intro n rest hedding flag tmp ihn ihrest evs h
    unfold flushes_go at h
    obtain ⟨r, h1, h2⟩ := except_bind_ok2 _ _ _ h
    obtain ⟨evs2, h3, h4⟩ := except_bind_ok2 _ _ _ h2
    simp only [Except.ok.injEq] at h4
    subst h4
    intro e he
    rcases List.mem_append.mp he with hl | hr2
    · exact ihn r h1 e hl
    · exact ihrest r evs2 h3 e hr2

/-- C2 amended: the units committed by `tree_to_text_unit` are exactly
the `commit_of` image of the run's actual flush events - each unit's
content is its heading-path prefix concatenated with the body actually
flushed for it (the guarded text, or one splitter chunk) - and, under
the splitter's chunk-size contract, every such body is at most 1000
characters.  The 1000-character guard tests only this unprefixed body,
so the full content may exceed the bound by the length of its prefix
(see the counterexample). -/
theorem c2_main (oracle : SplitterOracle) (hb : bounded_chunks oracle)
    (tree : List CNode) (us : List TUnit)
    (h : tree_to_text_unit oracle tree [] "" = .ok us) :
    ∃ evs : List (String × String),
      flushes_go oracle tree "" false "" = .ok evs ∧
      us = evs.map commit_of ∧
      ∀ e ∈ evs, e.2.length ≤ 1000 := by
  obtain ⟨evs, he1, he2⟩ := tree_go_flushes oracle tree "" [] false "" us h
  exact ⟨evs, he1, by simpa using he2,
    flushes_go_bounded oracle hb tree "" false "" evs he1⟩

set_option maxRecDepth 100000 in
theorem c2_counterexample :
    split_text_unit (fun _ => none)
      [CNode.mk "heading" "# H" (some 1) [CNode.mk "paragraph" body998 none []]] =
      .ok [⟨"# H\n" ++ (body998 ++ "\n"), "text", (0 : Int)⟩] ∧
    body998.length ≤ 1000 ∧
    (("# H\n" ++ (body998 ++ "\n") : String)).length > 1000 := by
  refine ⟨rfl, ?_, ?_⟩
  · rw [show body998.length = 998 from rfl]
    norm_num
  · show 1000 < (("# H\n" ++ (body998 ++ "\n") : String)).length
    rw [show (("# H\n" ++ (body998 ++ "\n") : String)).length = 1003 from rfl]
    norm_num

set_option maxRecDepth 100000 in
theorem c2_witness :
    ∃ evs : List (String × String),
      flushes_go (fun _ => none)
        [CNode.mk "heading" "# H" (some 1) [CNode.mk "paragraph" body998 none []]]
        "" false "" = .ok evs ∧
      [(⟨"# H\n" ++ (body998 ++ "\n"), "text", (0 : Int)⟩ : TUnit)] = evs.map commit_of ∧
      ∀ e ∈ evs, e.2.length ≤ 1000 :=
  c2_main (fun _ => none)
    (by
      intro s j hj
      exact absurd hj (by simp))
    [CNode.mk "heading" "# H" (some 1) [CNode.mk "paragraph" body998 none []]]
    [⟨"# H\n" ++ (body998 ++ "\n"), "text", (0 : Int)⟩]
    (by rfl)

theorem levelOf_isSome_lt (heap : List HNode) (r : Nat)
    (h : (levelOf heap r).isSome) : r < heap.length := by
  unfold levelOf at h
  cases hr : heap[r]? with
  | some n => exact (List.getElem?_eq_some_iff.mp hr).1
  | none => rw [hr] at h; simp at h

theorem levelOf_append (heap : List HNode) (item : HNode) (r : Nat)
    (h : r < heap.length) : levelOf (heap ++ [item]) r = levelOf heap r := by
  unfold levelOf
  rw [List.getElem?_append_left h]

theorem levelOf_append_self (heap : List HNode) (item : HNode) :
    levelOf (heap ++ [item]) heap.length = item.level := by
  unfold levelOf
  rw [List.getElem?_append_right (le_refl _)]
  simp

theorem levelOf_appendChild (heap : List HNode) (p ref r : Nat) :
    levelOf (appendChild heap p ref) r = levelOf heap r := by
  unfold appendChild
  cases hp : heap[p]? with
  | some n =>
    unfold levelOf
    by_cases hr : p = r
    · subst hr
      rw [List.getElem?_set_self (List.getElem?_eq_some_iff.mp hp).1, hp]
    · rw [List.getElem?_set_ne hr]
  | none => rfl

theorem popScopes_decomp (heap : List HNode) (lvl : Int) (stack : List Nat) :
    ∃ popped, stack = popScopes heap lvl stack ++ popped ∧
      ∀ r ∈ popped, levGe heap r lvl = true := by
  refine ⟨(stack.reverse.takeWhile (fun r => levGe heap r lvl)).reverse, ?_, ?_⟩
  · unfold popScopes
    rw [← List.reverse_append, List.takeWhile_append_dropWhile, List.reverse_reverse]
  · intro r hr
    rw [List.mem_reverse] at hr
    exact List.mem_takeWhile_imp (p := fun x => levGe heap x lvl) hr

theorem head?_dropWhile_not (p : α → Bool) (l : List α) :
    ∀ a, (l.dropWhile p).head? = some a → p a = false := by
  induction l with
  | nil => intro a h; simp [List.dropWhile] at h
  | cons x xs ih =>
    intro a h
    rw [List.dropWhile_cons] at h
    by_cases hx : p x = true
    · rw [if_pos hx] at h
      exact ih a h
    · rw [if_neg hx] at h
      simp only [List.head?_cons, Option.some.injEq] at h
      subst h
      exact Bool.eq_false_iff.mpr hx

theorem popScopes_getLast (heap : List HNode) (lvl : Int) (stack : List Nat)
    (r : Nat) (h : (popScopes heap lvl stack).getLast? = some r) :
    levGe heap r lvl = false := by
  unfold popScopes at h
  rw [List.getLast?_reverse] at h
  exact head?_dropWhile_not _ _ r h

theorem popScopes_sublist (heap : List HNode) (lvl : Int) (stack : List Nat) :
    (popScopes heap lvl stack).Sublist stack := by
  obtain ⟨popped, hdec, _⟩ := popScopes_decomp heap lvl stack
  conv_rhs => rw [hdec]
  exact List.sublist_append_left _ _

theorem levLt_congr (heap heap' : List HNode) (a b : Nat)
    (ha : levelOf heap' a = levelOf heap a) (hb : levelOf heap' b = levelOf heap b)
    (h : levLt heap a b) : levLt heap' a b := by
  obtain ⟨x, y, hx, hy, hxy⟩ := h
  exact ⟨x, y, ha.trans hx, hb.trans hy, hxy⟩

theorem attachPlain_stack (st : BuildState) (item : HNode) :
    (attachPlain st item).stack = st.stack := by
  unfold attachPlain
  cases st.stack.getLast? <;> rfl

theorem attachPlain_levelOf (st : BuildState) (item : HNode) (r : Nat)
    (hr : r < st.heap.length) :
    levelOf (attachPlain st item).heap r = levelOf st.heap r := by
  unfold attachPlain
  cases st.stack.getLast? with
  | some p =>
    show levelOf (appendChild (st.heap ++ [item]) p _) r = _
    rw [levelOf_appendChild, levelOf_append _ _ _ hr]
  | none =>
    show levelOf (st.heap ++ [item]) r = _
    rw [levelOf_append _ _ _ hr]

theorem attachPlain_StackOK (st : BuildState) (item : HNode)
    (h : StackOK st) : StackOK (attachPlain st item) := by
  obtain ⟨hsome, hpair⟩ := h
  constructor
  · intro r hr
    rw [attachPlain_stack] at hr
    rw [attachPlain_levelOf _ _ _ (levelOf_isSome_lt _ _ (hsome r hr))]
    exact hsome r hr
  · rw [attachPlain_stack]
    refine hpair.imp_of_mem ?_
    intro a b ha hb hl
    exact levLt_congr _ _ _ _
      (attachPlain_levelOf _ _ _ (levelOf_isSome_lt _ _ (hsome a ha)))
      (attachPlain_levelOf _ _ _ (levelOf_isSome_lt _ _ (hsome b hb))) hl

theorem popScopes_levels_lt (st : BuildState) (hok : StackOK st) (lvl : Int) :
    ∀ r ∈ popScopes st.heap lvl st.stack,
      ∃ lr, levelOf st.heap r = some lr ∧ lr < lvl := by
  intro r hr
  have hsub := popScopes_sublist st.heap lvl st.stack
  have hmem : r ∈ st.stack := hsub.mem hr
  obtain ⟨hsome, hpair⟩ := hok
  have hne : popScopes st.heap lvl st.stack ≠ [] := by
    intro he
    rw [he] at hr
    cases hr
  have hlast := List.getLast?_eq_getLast _ hne
  set p := (popScopes st.heap lvl st.stack).getLast hne with hp
  have hpf : levGe st.heap p lvl = false := popScopes_getLast _ _ _ _ hlast
  have hpmem : p ∈ st.stack := hsub.mem (List.getLast_mem hne)
  obtain ⟨lp, hlp⟩ := Option.isSome_iff_exists.mp (hsome p hpmem)
  have hlplt : lp < lvl := by
    unfold levGe at hpf
    rw [hlp] at hpf
    simp only [decide_eq_false_iff_not, not_le] at hpf
    exact hpf
  rcases List.mem_append.mp
      ((List.dropLast_append_getLast hne ▸ hr : r ∈ _)) with hinit | hsing
  · have hpairsub : (popScopes st.heap lvl st.stack).Pairwise (levLt st.heap) :=
      hpair.sublist hsub
    have hdecomp := List.dropLast_append_getLast hne
    rw [← hdecomp] at hpairsub
    obtain ⟨-, -, hcross⟩ := List.pairwise_append.mp hpairsub
    obtain ⟨x, y, hx, hy, hxy⟩ := hcross r hinit p (List.mem_singleton_self _)
    rw [hlp] at hy
    injection hy with hy
    subst hy
    exact ⟨x, hx, lt_trans hxy hlplt⟩
  · rcases List.mem_singleton.mp hsing with rfl
    exact ⟨lp, hlp, hlplt⟩

theorem handle_heading_spec (node : MdAst) (st : BuildState) (hok : StackOK st) :
    (handle_heading node st).stack =
      popScopes st.heap (node.attrsLevel.getD 0) st.stack ++ [st.heap.length] ∧
    (∀ p, (popScopes st.heap (node.attrsLevel.getD 0) st.stack).getLast? = some p →
      ∃ lp, levelOf st.heap p = some lp ∧ lp < node.attrsLevel.getD 0 ∧
        ∃ n, st.heap[p]? = some n ∧
          (handle_heading node st).heap[p]? =
            some (HNode.mk n.type n.text n.level (n.children ++ [st.heap.length])) ∧
          (handle_heading node st).tree = st.tree) ∧
    ((popScopes st.heap (node.attrsLevel.getD 0) st.stack).getLast? = none →
      (handle_heading node st).tree = st.tree ++ [st.heap.length]) ∧
    levelOf (handle_heading node st).heap st.heap.length =
      some (node.attrsLevel.getD 0) ∧
    (∀ r, r < st.heap.length →
      levelOf (handle_heading node st).heap r = levelOf st.heap r) ∧
    StackOK (handle_heading node st) := by
  have hlt := popScopes_levels_lt st hok (node.attrsLevel.getD 0)
  have hsub := popScopes_sublist st.heap (node.attrsLevel.getD 0) st.stack
  obtain ⟨hsome, hpair⟩ := hok
  -- names for the pieces of handle_heading
  set lvl : Int := node.attrsLevel.getD 0 with hlvl
  set stack1 := popScopes st.heap lvl st.stack with hstack1
  set ref := st.heap.length with href
  set item : HNode := HNode.mk "heading"
    (match node.children with
     | c :: _ => if c.mtype = "text" then hashString lvl ++ " " ++ c.raw else ""
     | [] => "") (some lvl) [] with hitem
  have hitemlevel : item.level = some lvl := rfl
  have hunfold : handle_heading node st =
      match stack1.getLast? with
      | some p => BuildState.mk (appendChild (st.heap ++ [item]) p ref) st.tree (stack1 ++ [ref])
      | none => BuildState.mk (st.heap ++ [item]) (st.tree ++ [ref]) (stack1 ++ [ref]) := rfl
  -- facts independent of the branch
  have hlev_pres : ∀ r, r < st.heap.length →
      levelOf (handle_heading node st).heap r = levelOf st.heap r := by
    intro r hr
    rw [hunfold]
    cases stack1.getLast? with
    | some p =>
      show levelOf (appendChild (st.heap ++ [item]) p ref) r = _
      rw [levelOf_appendChild, levelOf_append _ _ _ hr]
    | none =>
      show levelOf (st.heap ++ [item]) r = _
      rw [levelOf_append _ _ _ hr]
  have hlev_ref : levelOf (handle_heading node st).heap ref = some lvl := by
    rw [hunfold]
    cases stack1.getLast? with
    | some p =>
      show levelOf (appendChild (st.heap ++ [item]) p ref) ref = _
      rw [levelOf_appendChild, levelOf_append_self]
    | none =>
      show levelOf (st.heap ++ [item]) ref = _
      rw [levelOf_append_self]
  have hstack' : (handle_heading node st).stack = stack1 ++ [ref] := by
    rw [hunfold]
    cases stack1.getLast? <;> rfl
  have hok' : StackOK (handle_heading node st) := by
    constructor
    · intro r hr
      rw [hstack'] at hr
      rcases List.mem_append.mp hr with h1 | h2
      · obtain ⟨lr, hlr, _⟩ := hlt r h1
        rw [hlev_pres r (levelOf_isSome_lt _ _ (by rw [hlr]; rfl)), hlr]
        rfl
      · rcases List.mem_singleton.mp h2 with rfl
        rw [hlev_ref]
        rfl
    · rw [hstack']
      rw [List.pairwise_append]
      refine ⟨?_, List.pairwise_singleton _ _, ?_⟩
      · refine (hpair.sublist hsub).imp_of_mem ?_
        intro a b ha hb hl
        obtain ⟨la, hla, _⟩ := hlt a ha
        obtain ⟨lb, hlb, _⟩ := hlt b hb
        exact levLt_congr _ _ _ _
          (hlev_pres a (levelOf_isSome_lt _ _ (by rw [hla]; rfl)))
          (hlev_pres b (levelOf_isSome_lt _ _ (by rw [hlb]; rfl))) hl
      · intro a ha b hb
        rcases List.mem_singleton.mp hb with rfl
        obtain ⟨la, hla, hlalt⟩ := hlt a ha
        refine ⟨la, lvl, ?_, hlev_ref, hlalt⟩
        rw [hlev_pres a (levelOf_isSome_lt _ _ (by rw [hla]; rfl)), hla]
  refine ⟨hstack', ?_, ?_, hlev_ref, hlev_pres, hok'⟩
  · intro p hp
    obtain ⟨lp, hlp, hlplt⟩ := hlt p (by
      have hne : stack1 ≠ [] := by
        intro he
        rw [he] at hp
        cases hp
      have := List.getLast?_eq_getLast _ hne
      rw [hp] at this
      injection this with this
      rw [this]
      exact List.getLast_mem hne)
    have hplen : p < st.heap.length := levelOf_isSome_lt _ _ (by rw [hlp]; rfl)
    obtain ⟨n, hn⟩ : ∃ n, st.heap[p]? = some n := by
      cases hq : st.heap[p]? with
      | some n => exact ⟨n, rfl⟩
      | none =>
        rw [List.getElem?_eq_none_iff] at hq
        omega
    refine ⟨lp, hlp, hlplt, n, hn, ?_, ?_⟩
    · rw [hunfold, hp]
      show (appendChild (st.heap ++ [item]) p ref)[p]? = _
      unfold appendChild
      have hn1 : (st.heap ++ [item])[p]? = some n := by
        rw [List.getElem?_append_left hplen]
        exact hn
      rw [hn1]
      rw [List.getElem?_set_self]
      rw [List.length_append]
      omega
    · rw [hunfold, hp]
  · intro hp
    rw [hunfold, hp]

theorem build_step_StackOK (st : BuildState) (node : MdAst) (h : StackOK st) :
    StackOK (build_step st node) := by
  unfold build_step
  split
  · exact (handle_heading_spec node st h).2.2.2.2.2
  · exact attachPlain_StackOK _ _ h
  · exact attachPlain_StackOK _ _ h
  · exact attachPlain_StackOK _ _ h
  · exact attachPlain_StackOK _ _ h
  · exact h

theorem build_tree_StackOK (ast : List MdAst) : StackOK (build_tree_state ast) := by
  have hfold : ∀ (l : List MdAst) (st : BuildState), StackOK st →
      StackOK (l.foldl build_step st) := by
    intro l
    induction l with
    | nil => intro st h; exact h
    | cons n rest ih =>
      intro st h
      exact ih _ (build_step_StackOK st n h)
  refine hfold ast _ ⟨?_, List.Pairwise.nil⟩
  intro r hr
  cases hr

theorem takeWhile_eq_left {α : Type} (q : α → Bool) (l1 l2 : List α)
    (h1 : ∀ a ∈ l1, q a = true) (h2 : ∀ a ∈ l2, q a = false) :
    (l1 ++ l2).takeWhile q = l1 := by
  induction l1 with
  | nil =>
    cases l2 with
    | nil => rfl
    | cons x xs =>
      simp only [List.nil_append, List.takeWhile_cons, h2 x (List.mem_cons_self _ _)]
      rfl
  | cons x xs ih =>
    simp only [List.cons_append, List.takeWhile_cons, h1 x (List.mem_cons_self _ _),
      if_true]
    rw [ih (fun a ha => h1 a (List.mem_cons_of_mem _ ha))]

theorem popScopes_eq_takeWhile (st : BuildState) (hok : StackOK st) (lvl : Int) :
    popScopes st.heap lvl st.stack =
      st.stack.takeWhile (fun r => !(levGe st.heap r lvl)) := by
  obtain ⟨popped, hdec, hpop⟩ := popScopes_decomp st.heap lvl st.stack
  have hkeep : ∀ r ∈ popScopes st.heap lvl st.stack, (!(levGe st.heap r lvl)) = true := by
    intro r hr
    obtain ⟨lr, hlr, hlt⟩ := popScopes_levels_lt st hok lvl r hr
    unfold levGe
    rw [hlr]
    simp only [Bool.not_eq_true']
    simp only [decide_eq_false_iff_not, not_le]
    exact hlt
  conv_lhs => skip
  rw [show st.stack.takeWhile (fun r => !(levGe st.heap r lvl)) =
      ((popScopes st.heap lvl st.stack ++ popped).takeWhile
        (fun r => !(levGe st.heap r lvl))) from by rw [← hdec]]
  refine takeWhile_eq_left _ _ _ hkeep ?_ |>.symm
  intro a ha
  rw [hpop a ha]
  rfl

theorem build_step_heading (st : BuildState) (node : MdAst)
    (hn : node.mtype = "heading") : build_step st node = handle_heading node st := by
  unfold build_step
  rw [hn]
  rfl

theorem build_tree_state_snoc (ast : List MdAst) (node : MdAst) :
    build_tree_state (ast ++ [node]) = build_step (build_tree_state ast) node := by
  unfold build_tree_state
  rw [List.foldl_append]
  rfl

/-- C10: handling a heading of level `L` pops exactly the open scopes of
level `≥ L`, attaches the new heading under the nearest remaining scope
of level `< L` (or as a root when none remains), pushes its scope, and
keeps the stack levels strictly increasing. -/
theorem c10_main (ast : List MdAst) (node : MdAst) (hn : node.mtype = "heading") :
    (build_tree_state (ast ++ [node])).stack =
      ((build_tree_state ast).stack.takeWhile
        (fun r => !(levGe (build_tree_state ast).heap r (node.attrsLevel.getD 0)))) ++
        [(build_tree_state ast).heap.length] ∧
    (∃ popped, (build_tree_state ast).stack =
      ((build_tree_state ast).stack.takeWhile
        (fun r => !(levGe (build_tree_state ast).heap r (node.attrsLevel.getD 0)))) ++ popped ∧
      ∀ r ∈ popped, levGe (build_tree_state ast).heap r (node.attrsLevel.getD 0) = true) ∧
    (∀ p, (((build_tree_state ast).stack.takeWhile
        (fun r => !(levGe (build_tree_state ast).heap r (node.attrsLevel.getD 0))))).getLast? =
          some p →
      ∃ lp, levelOf (build_tree_state ast).heap p = some lp ∧
        lp < node.attrsLevel.getD 0 ∧
        ∃ n, (build_tree_state ast).heap[p]? = some n ∧
          (build_tree_state (ast ++ [node])).heap[p]? =
            some (HNode.mk n.type n.text n.level
              (n.children ++ [(build_tree_state ast).heap.length])) ∧
          (build_tree_state (ast ++ [node])).tree = (build_tree_state ast).tree) ∧
    ((((build_tree_state ast).stack.takeWhile
        (fun r => !(levGe (build_tree_state ast).heap r (node.attrsLevel.getD 0))))).getLast? =
          none →
      (build_tree_state (ast ++ [node])).tree =
        (build_tree_state ast).tree ++ [(build_tree_state ast).heap.length]) ∧
    (∀ r ∈ (build_tree_state (ast ++ [node])).stack,
      (levelOf (build_tree_state (ast ++ [node])).heap r).isSome) ∧
    (build_tree_state (ast ++ [node])).stack.Pairwise
      (levLt (build_tree_state (ast ++ [node])).heap) := by
  have hok := build_tree_StackOK ast
  have hstep : build_tree_state (ast ++ [node]) =
      handle_heading node (build_tree_state ast) := by
    rw [build_tree_state_snoc, build_step_heading _ _ hn]
  obtain ⟨h1, h2, h3, _, _, h6⟩ := handle_heading_spec node (build_tree_state ast) hok
  have htake := popScopes_eq_takeWhile (build_tree_state ast) hok (node.attrsLevel.getD 0)
  rw [htake] at h1 h2 h3
  refine ⟨by rw [hstep]; exact h1, ?_, ?_, ?_, ?_, ?_⟩
  · obtain ⟨popped, hd, hp⟩ := popScopes_decomp (build_tree_state ast).heap
      (node.attrsLevel.getD 0) (build_tree_state ast).stack
    rw [htake] at hd
    exact ⟨popped, hd, hp⟩
  · intro p hp
    obtain ⟨lp, hlp, hlt, n, hn1, hn2, hn3⟩ := h2 p hp
    exact ⟨lp, hlp, hlt, n, hn1, by rw [hstep]; exact hn2, by rw [hstep]; exact hn3⟩
  · intro hp
    rw [hstep]
    exact h3 hp
  · intro r hr
    rw [hstep] at hr ⊢
    exact h6.1 r hr
  · rw [hstep]
    exact h6.2

theorem c10_witness :
    (build_tree_state ([hAst 1 "A", hAst 3 "C"] ++ [hAst 2 "B"])).stack =
      (((build_tree_state [hAst 1 "A", hAst 3 "C"]).stack.takeWhile
        (fun r => !(levGe (build_tree_state [hAst 1 "A", hAst 3 "C"]).heap r
          ((hAst 2 "B").attrsLevel.getD 0)))) ++
        [(build_tree_state [hAst 1 "A", hAst 3 "C"]).heap.length]) ∧
    (build_tree_state ([hAst 1 "A", hAst 3 "C"] ++ [hAst 2 "B"])).stack = [0, 2] :=
  ⟨(c10_main [hAst 1 "A", hAst 3 "C"] (hAst 2 "B") rfl).1, rfl⟩

